import Mathlib

/-!
# Agenda: appointment booking against a remote calendar

A shallow embedding of `main.go` (package `main`): the booking handler
`reservarHandler`, the index handler, and the token acquisition path
`getClient` / `tokenFromFile` / `getTokenFromWeb` / `saveToken`.

The handler's observable behaviour is decided by three functions of Go's
standard library, `time.Parse`, `Time.Add` and `Time.Format`.  They are
transcribed here from the sources of package `time` (release 1.22), cut down
to the layout `"2006-01-02T15:04"` the handler parses with and the layout
`time.RFC3339` it formats with.  Go strings are modelled as lists of
characters; every byte the parser inspects is compared with an ASCII digit or
an ASCII separator, so a character outside ASCII behaves like each of its
bytes: it is neither.
-/

namespace Agenda

/-! ## Machine integers -/

/-- Conversion of a mathematical integer to Go's `uint64` (wrap around). -/
def toUint64 (x : Int) : Nat := (x % 18446744073709551616).toNat

/-- Conversion of a mathematical integer to Go's `int64` (wrap around). -/
def toInt64 (x : Int) : Int :=
  (x + 9223372036854775808) % 18446744073709551616 - 9223372036854775808

/-! ## Package `time`: constants -/

def secondsPerMinute : Nat := 60
def secondsPerHour : Nat := 3600
def secondsPerDay : Nat := 86400
def daysPer400Years : Nat := 146097
def daysPer100Years : Nat := 36524
def daysPer4Years : Nat := 1461

/-- Go `absoluteZeroYear`: the year of the absolute epoch. -/
def absoluteZeroYear : Int := -292277022399

/-- Go `absoluteToInternal`. -/
def absoluteToInternal : Int := -9223371966579724800

/-- Go `internalToAbsolute`. -/
def internalToAbsolute : Int := 9223371966579724800

/-- Go `unixToInternal`. -/
def unixToInternal : Int := 62135596800

/-- Go `internalToUnix`. -/
def internalToUnix : Int := -62135596800

/-- Go `time.Nanosecond` to `time.Hour`, durations counted in nanoseconds. -/
def Second : Int := 1000000000
def Hour : Int := 3600 * Second

/-- Go `daysBefore`: the number of days in a non-leap year before month `m + 1`. -/
def daysBefore : List Int :=
  [0, 31, 59, 90, 120, 151, 181, 212, 243, 273, 304, 334, 365]

/-- Go `isLeap`; `%` in Go truncates towards zero. -/
def isLeap (year : Int) : Bool :=
  year.tmod 4 == 0 && (year.tmod 100 != 0 || year.tmod 400 == 0)

/-- Go `daysIn`. -/
def daysIn (m : Int) (year : Int) : Int :=
  if m == 2 && isLeap year then 29
  else daysBefore.getD m.toNat 0 - daysBefore.getD (m - 1).toNat 0

/-! ## Package `time`: the `Time` value -/

/-- A time zone with a fixed offset in seconds east of UTC. -/
structure Location where
  offset : Int
  deriving DecidableEq, Repr

/-- Go `time.UTC`. -/
def UTC : Location := ⟨0⟩

/-- Go `time.Time` without a monotonic reading: `nsec` is the nanosecond part
of `wall`, `ext` the seconds since January 1 of year 1 (an `int64`). -/
structure Time where
  nsec : Int
  ext : Int
  loc : Location
  deriving DecidableEq, Repr

/-- Go `Time.unixSec`. -/
def Time.unixSec (t : Time) : Int := toInt64 (t.ext + internalToUnix)

/-- Go `Time.abs`: seconds since the absolute epoch, shifted into the zone of `t`. -/
def Time.abs (t : Time) : Nat :=
  toUint64 (toInt64 (t.unixSec + t.loc.offset) + (unixToInternal + internalToAbsolute))

/-- Go `norm`: carries `lo` into `hi` until `0 ≤ lo < base`.  Both divisions
have a non-negative dividend, where truncation and flooring agree. -/
def norm (hi lo base : Int) : Int × Int :=
  let (hi, lo) :=
    if lo < 0 then
      let n := (-lo - 1) / base + 1
      (hi - n, lo + n * base)
    else (hi, lo)
  if lo ≥ base then
    let n := lo / base
    (hi + n, lo - n * base)
  else (hi, lo)

/-- Go `daysSinceEpoch`: days from the absolute epoch to January 1 of `year`. -/
def daysSinceEpoch (year : Int) : Nat :=
  let y := toUint64 (toInt64 year - absoluteZeroYear)
  let n := y / 400
  let y := y - 400 * n
  let d := daysPer400Years * n
  let n := y / 100
  let y := y - 100 * n
  let d := d + daysPer100Years * n
  let n := y / 4
  let y := y - 4 * n
  let d := d + daysPer4Years * n
  let n := y
  d + 365 * n

/-- Go `time.Date` for a location with a fixed offset. -/
def Date (year month day hour min sec nsec : Int) (loc : Location) : Time :=
  let m := month - 1
  let (year, m) := norm year m 12
  let month := m + 1
  let (sec, nsec) := norm sec nsec 1000000000
  let (min, sec) := norm min sec 60
  let (hour, min) := norm hour min 60
  let (day, hour) := norm day hour 24
  let d := daysSinceEpoch year
  let d := toUint64 (d + daysBefore.getD (month - 1).toNat 0)
  let d := if isLeap year && month ≥ 3 then d + 1 else d
  let d := toUint64 (d + (day - 1))
  let abs := toUint64 (d * secondsPerDay)
  let abs := toUint64 (abs + (hour * secondsPerHour + min * secondsPerMinute + sec))
  let unix := toInt64 (abs + (absoluteToInternal + internalToUnix))
  let unix := toInt64 (unix - loc.offset)
  ⟨nsec, toInt64 (unix + unixToInternal), loc⟩

/-- Go `Time.Add`, with the saturating `addSec`. -/
def Time.Add (t : Time) (d : Int) : Time :=
  let dsec := d.tdiv 1000000000
  let nsec := t.nsec + d.tmod 1000000000
  let (dsec, nsec) :=
    if nsec ≥ 1000000000 then (dsec + 1, nsec - 1000000000)
    else if nsec < 0 then (dsec - 1, nsec + 1000000000)
    else (dsec, nsec)
  let sum := toInt64 (t.ext + dsec)
  let ext :=
    if decide (sum > t.ext) == decide (dsec > 0) then sum
    else if dsec > 0 then 9223372036854775807
    else -9223372036854775807
  ⟨nsec, ext, t.loc⟩

/-! ## Package `time`: parsing with the layout `"2006-01-02T15:04"` -/

/-- Go `isDigit`: whether `s[i]` is in range and a decimal digit. -/
def isDigit (s : List Char) (i : Nat) : Bool :=
  match s.get? i with
  | some c => decide (48 ≤ c.toNat) && decide (c.toNat ≤ 57)
  | none => false

/-- The value of the byte `s[i] - '0'`. -/
def digitAt (s : List Char) (i : Nat) : Int :=
  match s.get? i with
  | some c => (c.toNat : Int) - 48
  | none => 0

/-- Go `getnum`: a one or two digit number; with `fixed` it must have two digits. -/
def getnum (s : List Char) (fixed : Bool) : Option (Int × List Char) :=
  if !isDigit s 0 then none
  else if !isDigit s 1 then
    if fixed then none else some (digitAt s 0, s.drop 1)
  else some (digitAt s 0 * 10 + digitAt s 1, s.drop 2)

/-- Go `leadingInt`: the unsigned decimal number at the start of `s` and the
rest of `s`, failing on overflow. -/
def leadingInt : List Char → Nat → Option (Nat × List Char)
  | [], x => some (x, [])
  | c :: rest, x =>
    if c.toNat < 48 || c.toNat > 57 then some (x, c :: rest)
    else if x > 9223372036854775808 / 10 then none
    else
      let x := x * 10 + c.toNat - 48
      if x > 9223372036854775808 then none
      else leadingInt rest x

/-- Go `atoi`: an optionally signed decimal number filling the whole of `s`. -/
def atoi (s : List Char) : Option Int :=
  let neg := match s with
    | c :: _ => c == '-'
    | [] => false
  let s := match s with
    | c :: rest => if c == '-' || c == '+' then rest else c :: rest
    | [] => []
  match leadingInt s 0 with
  | some (q, []) => some (if neg then -(q : Int) else q)
  | _ => none

/-- Go `skip` for a literal without spaces: `value` must start with it. -/
def skip : List Char → List Char → Option (List Char)
  | value, [] => some value
  | [], _ :: _ => none
  | v :: value, p :: rest => if v != p then none else skip value rest

/-- Go `time.Parse("2006-01-02T15:04", value)`.  `nextStdChunk` cuts the layout
into `stdLongYear`, `"-"`, `stdZeroMonth`, `"-"`, `stdZeroDay`, `"T"`, `stdHour`,
`":"`, `stdZeroMinute`; the loop body of `parse` is unrolled over these chunks.
The layout names no zone, so the result is in UTC. -/
def Parse (value : List Char) : Option Time :=
  -- stdLongYear
  (skip value []).bind fun value =>
  if value.length < 4 || !isDigit value 0 then none else
  (atoi (value.take 4)).bind fun year =>
  let value := value.drop 4
  -- "-" stdZeroMonth
  (skip value ['-']).bind fun value =>
  (getnum value true).bind fun (month, value) =>
  if month ≤ 0 || 12 < month then none else
  -- "-" stdZeroDay
  (skip value ['-']).bind fun value =>
  (getnum value true).bind fun (day, value) =>
  -- "T" stdHour
  (skip value ['T']).bind fun value =>
  (getnum value false).bind fun (hour, value) =>
  if hour < 0 || 24 ≤ hour then none else
  -- ":" stdZeroMinute
  (skip value [':']).bind fun value =>
  (getnum value true).bind fun (min, value) =>
  if min < 0 || 60 ≤ min then none else
  -- end of the layout
  (skip value []).bind fun value =>
  if value.length != 0 then none else
  -- the day of the month is validated last
  if day < 1 || day > daysIn month year then none else
  some (Date year month day hour min 0 0 UTC)

/-! ## Package `time`: formatting with the layout `time.RFC3339` -/

/-- The part of Go `absDate` that runs whatever `full` is: the year and the
day of the year (from zero) of the day that holds the absolute second `abs`.
The shifts `n >> 2` are written `n / 4`. -/
def absYearDay (abs : Nat) : Int × Int :=
  let d := abs / secondsPerDay
  let n := d / daysPer400Years
  let y := 400 * n
  let d := d - daysPer400Years * n
  let n := d / daysPer100Years
  let n := n - n / 4
  let y := y + 100 * n
  let d := d - daysPer100Years * n
  let n := d / daysPer4Years
  let y := y + 4 * n
  let d := d - daysPer4Years * n
  let n := d / 365
  let n := n - n / 4
  let y := y + n
  let d := d - 365 * n
  (toInt64 (toInt64 y + absoluteZeroYear), d)

/-- Go `absDate` with `full = true`: year, month and day of the month. -/
def absDate (abs : Nat) : Int × Int × Int :=
  let (year, yday) := absYearDay abs
  let day := yday
  if isLeap year && day == 31 + 29 - 1 then (year, 2, 29)
  else
    let day := if isLeap year && day > 31 + 29 - 1 then day - 1 else day
    let month := day / 31
    let fin := daysBefore.getD (month + 1).toNat 0
    let (month, start) :=
      if day ≥ fin then (month + 1, fin) else (month, daysBefore.getD month.toNat 0)
    (year, month + 1, day - start + 1)

/-- Go `absClock`: hour, minute and second within the day. -/
def absClock (abs : Nat) : Int × Int × Int :=
  let sec : Int := (abs % secondsPerDay : Nat)
  let hour := sec / secondsPerHour
  let sec := sec - hour * secondsPerHour
  let min := sec / secondsPerMinute
  let sec := sec - min * secondsPerMinute
  (hour, min, sec)

/-- The decimal digits of `u`, most significant first; `fuel` bounds their number. -/
def decimal : Nat → Nat → List Char
  | 0, _ => []
  | fuel + 1, u =>
    if u < 10 then [Char.ofNat (48 + u)]
    else decimal fuel (u / 10) ++ [Char.ofNat (48 + u % 10)]

/-- Go `appendInt`: `x` in decimal, with a sign when negative, padded with
zeros on the left to `width` digits. -/
def appendInt (b : List Char) (x : Int) (width : Nat) : List Char :=
  let b := if x < 0 then b ++ ['-'] else b
  let u := x.natAbs
  let ds := decimal 20 u
  b ++ List.replicate (width - ds.length) '0' ++ ds

/-- Go `Time.appendFormatRFC3339` without nanoseconds, which is what
`Time.Format(time.RFC3339)` runs. -/
def Time.Format (t : Time) : List Char :=
  let offset := t.loc.offset
  let abs := t.abs
  let date := absDate abs
  let year := date.1
  let month := date.2.1
  let day := date.2.2
  let b := appendInt [] year 4
  let b := b ++ ['-']
  let b := appendInt b month 2
  let b := b ++ ['-']
  let b := appendInt b day 2
  let b := b ++ ['T']
  let clock := absClock abs
  let hour := clock.1
  let min := clock.2.1
  let sec := clock.2.2
  let b := appendInt b hour 2
  let b := b ++ [':']
  let b := appendInt b min 2
  let b := b ++ [':']
  let b := appendInt b sec 2
  if offset == 0 then b ++ ['Z']
  else
    let zone := offset.tdiv 60
    let sign := if zone < 0 then '-' else '+'
    let zone := if zone < 0 then -zone else zone
    let b := b ++ [sign]
    let b := appendInt b (zone.tdiv 60) 2
    let b := b ++ [':']
    appendInt b (zone.tmod 60) 2

/-! ## The proleptic Gregorian calendar and RFC 3339 timestamps

The meaning of a timestamp, written down independently of package `time`: it
is what the strings the handler sends are compared against. -/

/-- Whether year `y` of the Gregorian calendar is a leap year. -/
def leapYear (y : Nat) : Bool :=
  y % 4 == 0 && (y % 100 != 0 || y % 400 == 0)

/-- The number of days of month `m` (1 to 12), in a leap year or not. -/
def monthLength (leap : Bool) (m : Nat) : Nat :=
  match m with
  | 1 => 31 | 2 => if leap then 29 else 28 | 3 => 31 | 4 => 30
  | 5 => 31 | 6 => 30 | 7 => 31 | 8 => 31 | 9 => 30 | 10 => 31 | 11 => 30
  | 12 => 31 | _ => 0

/-- The number of days of month `m` (1 to 12) in year `y`. -/
def daysInMonth (y m : Nat) : Nat := monthLength (leapYear y) m

/-- The number of days of a year before the first of month `m`. -/
def daysBeforeMonth (leap : Bool) (m : Nat) : Nat :=
  ((List.range (m - 1)).map (fun i => monthLength leap (i + 1))).sum

/-- The number of days from 0000-01-01 to the day `y`-`m`-`d`. -/
def daysFromCivil (y m d : Nat) : Nat :=
  365 * y + ((y + 3) / 4 - (y + 99) / 100 + (y + 399) / 400)
    + daysBeforeMonth (leapYear y) m + (d - 1)

/-- Whether a character is an ASCII decimal digit. -/
def isDig (c : Char) : Bool := decide (48 ≤ c.toNat) && decide (c.toNat ≤ 57)

/-- The number a decimal digit stands for. -/
def digitVal (c : Char) : Nat := c.toNat - 48

/-- The number two decimal digits write. -/
def twoDigits (a b : Char) : Nat := 10 * digitVal a + digitVal b

/-- The number a run of decimal digits writes. -/
def readNat (ds : List Char) : Nat := ds.foldl (fun n c => 10 * n + digitVal c) 0

/-- The offset east of UTC, in seconds, written by the zone suffix of a
timestamp: `Z`, `+hh:mm` or `-hh:mm`. -/
def zoneOffset : List Char → Option Int
  | [z] => if z = 'Z' then some 0 else none
  | [sg, a, b, c, d, e] =>
    if (sg = '+' ∨ sg = '-') ∧ c = ':' ∧ isDig a ∧ isDig b ∧ isDig d ∧ isDig e
        ∧ twoDigits a b < 24 ∧ twoDigits d e < 60 then
      let secs : Int := (twoDigits a b * 3600 + twoDigits d e * 60 : Nat)
      some (if sg = '-' then -secs else secs)
    else none
  | _ => none

/-- The instant a timestamp `YYYY-MM-DDTHH:MM:SS` followed by a zone denotes,
in seconds since 0000-01-01T00:00:00 UTC; `none` when the text is not such a
timestamp of a day and a time that exist.  The year is the run of digits
before the first `-` and has at least four digits. -/
def instantOf (s : List Char) : Option Int :=
  let ys := s.takeWhile isDig
  match s.dropWhile isDig with
  | s1 :: m1 :: m2 :: s2 :: d1 :: d2 :: sT :: h1 :: h2 :: s3 :: n1 :: n2 :: s4 :: c1 :: c2
      :: zone =>
    let y := readNat ys
    let m := twoDigits m1 m2
    let d := twoDigits d1 d2
    let h := twoDigits h1 h2
    let n := twoDigits n1 n2
    let c := twoDigits c1 c2
    if 4 ≤ ys.length ∧ s1 = '-' ∧ s2 = '-' ∧ sT = 'T' ∧ s3 = ':' ∧ s4 = ':'
        ∧ isDig m1 ∧ isDig m2 ∧ isDig d1 ∧ isDig d2 ∧ isDig h1 ∧ isDig h2
        ∧ isDig n1 ∧ isDig n2 ∧ isDig c1 ∧ isDig c2
        ∧ 1 ≤ m ∧ m ≤ 12 ∧ 1 ≤ d ∧ d ≤ daysInMonth y m ∧ h < 24 ∧ n < 60 ∧ c < 60 then
      (zoneOffset zone).map fun off =>
        ((daysFromCivil y m d * 86400 + h * 3600 + n * 60 + c : Nat) : Int) - off
    else none
  | _ => none

/-! ## The pattern of the form fields

What `fecha` and `hora` have to look like, written down independently of the
parser of package `time`. -/

/-- Year, month and day written by a text `YYYY-MM-DD`: four digits, `-`, two
digits, `-`, two digits, and nothing else. -/
def readFecha : List Char → Option (Nat × Nat × Nat)
  | [y1, y2, y3, y4, s1, m1, m2, s2, d1, d2] =>
    if isDig y1 ∧ isDig y2 ∧ isDig y3 ∧ isDig y4 ∧ s1 = '-' ∧ isDig m1 ∧ isDig m2
        ∧ s2 = '-' ∧ isDig d1 ∧ isDig d2 then
      some (1000 * digitVal y1 + 100 * digitVal y2 + 10 * digitVal y3 + digitVal y4,
        twoDigits m1 m2, twoDigits d1 d2)
    else none
  | _ => none

/-- Hour and minute written by a text `HH:MM` or `H:MM`: one or two digits,
`:`, two digits, and nothing else. -/
def readHora : List Char → Option (Nat × Nat)
  | [h1, h2, s, n1, n2] =>
    if isDig h1 ∧ isDig h2 ∧ s = ':' ∧ isDig n1 ∧ isDig n2 then
      some (twoDigits h1 h2, twoDigits n1 n2)
    else none
  | [h1, s, n1, n2] =>
    if isDig h1 ∧ s = ':' ∧ isDig n1 ∧ isDig n2 then
      some (digitVal h1, twoDigits n1 n2)
    else none
  | _ => none

/-- The fields name a day of the calendar and a minute of the day. -/
def validFields (y m d h n : Nat) : Prop :=
  1 ≤ m ∧ m ≤ 12 ∧ 1 ≤ d ∧ d ≤ daysInMonth y m ∧ h < 24 ∧ n < 60

instance (y m d h n : Nat) : Decidable (validFields y m d h n) := by
  unfold validFields
  infer_instance

/-- A defect of `fecha` against the pattern `YYYY-MM-DD`, position by
position: a character that is not a digit where the pattern has a digit, a
character other than `-` where the pattern has `-`, a month outside 01 to 12,
or a day outside 1 to the number of days of that month in that year. -/
def fechaDefect (fecha : List Char) : Prop :=
  (∃ i ∈ [0, 1, 2, 3, 5, 6, 8, 9], ∃ c, fecha.get? i = some c ∧ isDig c = false) ∨
  (∃ i ∈ [4, 7], ∃ c, fecha.get? i = some c ∧ c ≠ '-') ∨
  (∃ m1 m2, fecha.get? 5 = some m1 ∧ fecha.get? 6 = some m2 ∧ isDig m1 = true ∧
    isDig m2 = true ∧ (twoDigits m1 m2 < 1 ∨ 12 < twoDigits m1 m2)) ∨
  (∃ y1 y2 y3 y4 m1 m2 d1 d2, fecha.get? 0 = some y1 ∧ fecha.get? 1 = some y2 ∧
    fecha.get? 2 = some y3 ∧ fecha.get? 3 = some y4 ∧ fecha.get? 5 = some m1 ∧
    fecha.get? 6 = some m2 ∧ fecha.get? 8 = some d1 ∧ fecha.get? 9 = some d2 ∧
    isDig y1 = true ∧ isDig y2 = true ∧ isDig y3 = true ∧ isDig y4 = true ∧
    isDig m1 = true ∧ isDig m2 = true ∧ isDig d1 = true ∧ isDig d2 = true ∧
    (twoDigits d1 d2 < 1 ∨
      daysInMonth (1000 * digitVal y1 + 100 * digitVal y2 + 10 * digitVal y3 + digitVal y4)
        (twoDigits m1 m2) < twoDigits d1 d2))

/-- A shape defect of `hora` against the pattern `HH:MM`, position by position:
a character that is not a digit where the pattern has a digit, or a character
other than `:` where the pattern has `:`. -/
def horaShapeDefect (hora : List Char) : Prop :=
  (∃ i ∈ [0, 1, 3, 4], ∃ c, hora.get? i = some c ∧ isDig c = false) ∨
  (∃ c, hora.get? 2 = some c ∧ c ≠ ':')

/-- A range defect of `hora`: an hour above 23 or a minute above 59, at the
positions of `HH:MM` or in a time that `readHora` reads. -/
def horaRangeDefect (hora : List Char) : Prop :=
  (∃ h1 h2, hora.get? 0 = some h1 ∧ hora.get? 1 = some h2 ∧ isDig h1 = true ∧
    isDig h2 = true ∧ 23 < twoDigits h1 h2) ∨
  (∃ n1 n2, hora.get? 3 = some n1 ∧ hora.get? 4 = some n2 ∧ isDig n1 = true ∧
    isDig n2 = true ∧ 59 < twoDigits n1 n2) ∨
  (∃ h n, readHora hora = some (h, n) ∧ (23 < h ∨ 59 < n))

/-- The ways the form fields can be malformed, read against the positions of
`YYYY-MM-DD` and `HH:MM`. -/
def Malformed (fecha hora : List Char) : Prop :=
  fechaDefect fecha ∨ horaShapeDefect hora ∨ horaRangeDefect hora

/-- Whether `hora` is a time with a one digit hour: one digit, `:`, two digits,
and nothing else. -/
def oneDigitHour : List Char → Bool
  | [h, s, n1, n2] => isDig h && s == ':' && isDig n1 && isDig n2
  | _ => false

/-! ## Auxiliary functions of the proofs -/

/-- The month and the day of the month that `absDate` computes from the leap
flag of the year and the day of the year. -/
def monthDayOf (leap : Bool) (yday : Int) : Int × Int :=
  let day := yday
  if leap && day == 31 + 29 - 1 then (2, 29)
  else
    let day := if leap && day > 31 + 29 - 1 then day - 1 else day
    let month := day / 31
    let fin := daysBefore.getD (month + 1).toNat 0
    let (month, start) :=
      if day ≥ fin then (month + 1, fin) else (month, daysBefore.getD month.toNat 0)
    (month + 1, day - start + 1)

/-! ## Package `main`: the booking handler -/

/-- Go `calendar.EventDateTime`, the fields the handler sets. -/
structure EventDateTime where
  DateTime : String
  TimeZone : String
  deriving DecidableEq, Repr

/-- Go `calendar.EventAttendee`, the field the handler sets. -/
structure EventAttendee where
  Email : String
  deriving DecidableEq, Repr

/-- Go `calendar.Event`, the fields the handler sets. -/
structure Event where
  Summary : String
  Description : String
  Start : EventDateTime
  End : EventDateTime
  Attendees : List EventAttendee
  deriving DecidableEq, Repr

/-- The anonymous struct the confirmation page is rendered from. -/
structure Confirmation where
  Confirmacion : Bool
  Nombre : String
  Fecha : String
  Hora : String
  deriving DecidableEq, Repr

/-- The part of `http.Request` the handlers read: the method and `r.FormValue`. -/
structure Request where
  Method : String
  FormValue : String → String

/-- What a handler does to the outside, in the order it does it. -/
inductive Effect where
  /-- `tmpl.Execute(w, data)`; `none` is the `nil` data of the index page. -/
  | execute (data : Option Confirmation)
  /-- `http.Error(w, error, code)`. -/
  | httpError (error : String) (code : Nat)
  /-- `srv.Events.Insert(calendarId, evento).Do()`. -/
  | eventsInsert (calendarId : String) (evento : Event)
  deriving DecidableEq, Repr

/-- The status line of the response: the code of the first `http.Error`, and
200 (what `net/http` sends by default) when there is none. -/
def responseStatus : List Effect → Nat
  | [] => 200
  | Effect.httpError _ code :: _ => code
  | _ :: rest => responseStatus rest

/-- Whether an effect is a call of the remote calendar. -/
def Effect.isInsert : Effect → Bool
  | Effect.eventsInsert _ _ => true
  | _ => false

/-- Whether an effect renders the confirmation. -/
def Effect.isConfirmation : Effect → Bool
  | Effect.execute (some _) => true
  | _ => false

/-- Go `indexHandler`. -/
def indexHandler (r : Request) : List Effect :=
  if r.Method == "GET" then [Effect.execute none] else []

/-- Go `reservarHandler`.  `insertDo calendarId evento` is the error the remote
call returns, `none` for `nil`. -/
def reservarHandler (insertDo : String → Event → Option String) (r : Request) :
    List Effect :=
  if r.Method == "POST" then
    let nombre := r.FormValue "nombre"
    let email := r.FormValue "email"
    let fecha := r.FormValue "fecha"
    let hora := r.FormValue "hora"
    match Parse (fecha ++ "T" ++ hora).toList with
    | none => [Effect.httpError "Fecha u hora inválida" 400]
    | some inicio =>
      let fin := inicio.Add (1 * Hour)
      let evento : Event :=
        ⟨"Consulta con " ++ nombre,
         "Turno reservado desde la web",
         ⟨String.mk inicio.Format, "America/Argentina/Buenos_Aires"⟩,
         ⟨String.mk fin.Format, "America/Argentina/Buenos_Aires"⟩,
         [⟨email⟩]⟩
      match insertDo "primary" evento with
      | some _ =>
        [Effect.eventsInsert "primary" evento,
         Effect.httpError "Error al crear el evento" 500]
      | none =>
        [Effect.eventsInsert "primary" evento,
         Effect.execute (some ⟨true, nombre, fecha, hora⟩)]
  else []

/-- The request a browser sends when the booking form is submitted. -/
def postForm (nombre email fecha hora : String) : Request :=
  ⟨"POST", fun key =>
    if key = "nombre" then nombre
    else if key = "email" then email
    else if key = "fecha" then fecha
    else if key = "hora" then hora
    else ""⟩

/-! ## Package `main`: acquiring the token -/

/-- Go `oauth2.Token`; `Expiry` in seconds since the Unix epoch. -/
structure Token where
  AccessToken : String
  TokenType : String
  RefreshToken : String
  Expiry : Int
  deriving DecidableEq, Repr

/-- What the process meets outside itself while `getClient` runs. -/
structure World where
  /-- `os.Open(file)`: the content of a readable file, or the error. -/
  osOpen : String → Except String String
  /-- `json.NewDecoder(f).Decode(tok)` on a file content. -/
  jsonDecode : String → Except String Token
  /-- `config.AuthCodeURL("state-token", oauth2.AccessTypeOffline)`. -/
  authCodeURL : String
  /-- `fmt.Scan(&authCode)`: the word the operator types, or the error. -/
  scan : Except String String
  /-- `config.Exchange(ctx, authCode)`. -/
  exchange : String → Except String Token
  /-- `os.Create(path)`: the error, `none` for `nil`. -/
  osCreate : String → Option String

/-- What the start-up code does, in the order it does it. -/
inductive Step where
  /-- Entry into `getTokenFromWeb`. -/
  | getTokenFromWeb
  /-- Entry into `saveToken(path, token)`. -/
  | saveToken (path : String) (token : Token)
  /-- Text written to the console by `fmt.Print` or `fmt.Printf`. -/
  | print (text : String)
  /-- The blocking read `fmt.Scan`. -/
  | scan
  /-- The call `config.Exchange(ctx, authCode)`. -/
  | exchange (authCode : String)
  /-- A file created or truncated by `os.Create`. -/
  | create (path : String)
  /-- A token written by `json.NewEncoder(f).Encode(token)`. -/
  | encode (path : String) (token : Token)
  /-- The process ended by `log.Fatalf`. -/
  | fatal (message : String)
  /-- The call `config.Client(ctx, tok)`, which `getClient` returns. -/
  | client (tok : Token)
  deriving DecidableEq, Repr

/-- Go `tokenFromFile`. -/
def tokenFromFile (w : World) (file : String) : Except String Token :=
  match w.osOpen file with
  | Except.error err => Except.error err
  | Except.ok f => w.jsonDecode f

/-- Go `getTokenFromWeb`: its steps, and the token unless the process ended. -/
def getTokenFromWeb (w : World) : List Step × Option Token :=
  let steps :=
    [Step.getTokenFromWeb,
     Step.print ("Visita la siguiente URL para autorizar la aplicación:\n"
       ++ w.authCodeURL ++ "\n"),
     Step.print "Ingresa el código de autorización: ",
     Step.scan]
  match w.scan with
  | Except.error err =>
    (steps ++ [Step.fatal ("No se pudo leer el código de autorización: " ++ err)], none)
  | Except.ok authCode =>
    match w.exchange authCode with
    | Except.error err =>
      (steps ++ [Step.exchange authCode,
        Step.fatal ("No se pudo obtener el token: " ++ err)], none)
    | Except.ok tok => (steps ++ [Step.exchange authCode], some tok)

/-- Go `saveToken`: its steps, and whether it returns. -/
def saveToken (w : World) (path : String) (token : Token) : List Step × Bool :=
  let steps :=
    [Step.saveToken path token, Step.print ("Guardando token en " ++ path ++ "\n")]
  match w.osCreate path with
  | some err =>
    (steps ++ [Step.fatal ("No se pudo crear el archivo de token: " ++ err)], false)
  | none => (steps ++ [Step.create path, Step.encode path token], true)

/-- Go `getClient`: every step up to `config.Client`, or up to the end of the process. -/
def getClient (w : World) : List Step :=
  let tokFile := "token.json"
  match tokenFromFile w tokFile with
  | Except.ok tok => [Step.client tok]
  | Except.error _ =>
    match getTokenFromWeb w with
    | (steps, none) => steps
    | (steps, some tok) =>
      match saveToken w tokFile tok with
      | (saved, false) => steps ++ saved
      | (saved, true) => steps ++ saved ++ [Step.client tok]

/-- A token stored some time ago: it expired at second 100 of the Unix era. -/
def storedToken : Token := ⟨"stored-access", "Bearer", "stored-refresh", 100⟩

/-- A token the authorization server issues. -/
def issuedToken : Token := ⟨"issued-access", "Bearer", "issued-refresh", 4102444800⟩

/-- A world where `token.json` holds `storedToken`. -/
def worldWithToken : World :=
  ⟨fun _ => Except.ok "stored-token-json", fun _ => Except.ok storedToken,
   "https://accounts.google.com/o/oauth2/auth", Except.ok "4/code",
   fun _ => Except.ok issuedToken, fun _ => none⟩

/-- A world where `token.json` does not exist and the operator authorizes. -/
def worldWithoutToken : World :=
  ⟨fun _ => Except.error "open token.json: no such file or directory",
   fun _ => Except.ok storedToken,
   "https://accounts.google.com/o/oauth2/auth", Except.ok "4/code",
   fun _ => Except.ok issuedToken, fun _ => none⟩

/-! # Proofs -/

theorem yearDay_arith (D : Nat) (h0 : 106751990353566 ≤ D) (h1 : D < 106751990353566 + 3652791) :
    ∃ n400 n100 n4 n1 d4 : Nat,
      D / 146097 = n400 ∧
      (D - 146097 * n400) / 36524 - (D - 146097 * n400) / 36524 / 4 = n100 ∧
      (D - 146097 * n400 - 36524 * n100) / 1461 = n4 ∧
      (D - 146097 * n400 - 36524 * n100 - 1461 * n4) / 365 -
        (D - 146097 * n400 - 36524 * n100 - 1461 * n4) / 365 / 4 = n1 ∧
      D - 146097 * n400 - 36524 * n100 - 1461 * n4 - 365 * n1 = d4 ∧
      n100 ≤ 3 ∧ n4 ≤ 24 ∧ n1 ≤ 3 ∧ 
      D = 146097 * n400 + 36524 * n100 + 1461 * n4 + 365 * n1 + d4 ∧
      (d4 < 365 ∨ (d4 = 365 ∧ n1 = 3 ∧ (n4 < 24 ∨ n100 = 3))) ∧
      730692555 ≤ n400 ∧ n400 ≤ 730692556 + 25 := by
  refine ⟨_, _, _, _, _, rfl, rfl, rfl, rfl, rfl, ?_⟩
  omega

theorem cycle_arith (n400 n100 n4 n1 Y : Nat) (b1 : n100 ≤ 3) (b2 : n4 ≤ 24) (b3 : n1 ≤ 3)
   (hY : Y + 292277022399 = 400 * n400 + 100 * n100 + 4 * n4 + n1) :
   (Y + 3) / 4 + 73069255599 = 100 * n400 + 25 * n100 + n4 ∧
   (Y + 99) / 100 + 2922770223 = 4 * n400 + n100 ∧
   (Y + 399) / 400 + 730692555 = n400 ∧
   (Y % 4 = 0 ↔ n1 = 3) ∧ (Y % 100 = 0 ↔ (n1 = 3 ∧ n4 = 24)) ∧
   (Y % 400 = 0 ↔ (n1 = 3 ∧ n4 = 24 ∧ n100 = 3)) := by
  refine ⟨?_, ?_, ?_, ?_, ?_, ?_⟩ <;> omega


theorem toInt64_year (Y : Nat) (h : Y ≤ 10000) :
    toInt64 (toInt64 ((Y + 292277022399 : Nat) : Int) + absoluteZeroYear) = Y := by
  unfold toInt64 absoluteZeroYear
  omega

theorem absYearDay_spec (abs : Nat) (h0 : 9223371966548102400 ≤ abs)
    (h1 : abs < 9223371966548102400 + 86400 * 3652791) :
    ∃ Y yd : Nat, absYearDay abs = ((Y : Int), (yd : Int)) ∧ Y ≤ 10000 ∧
      (yd < 365 ∨ (yd = 365 ∧ Y % 4 = 0 ∧ (Y % 100 ≠ 0 ∨ Y % 400 = 0))) ∧
      106751990353566 + (365 * Y + ((Y + 3) / 4 - (Y + 99) / 100 + (Y + 399) / 400) + yd)
        = abs / 86400 := by
  obtain ⟨n400, n100, n4, n1, d4, e1, e2, e3, e4, e5, b1, b2, b3, hD, hd, l1, l2⟩ :=
    yearDay_arith (abs / 86400) (by omega) (by omega)
  have hy : 292277022399 ≤ 400 * n400 + 100 * n100 + 4 * n4 + n1 := by omega
  obtain ⟨Y, hY⟩ : ∃ Y : Nat, Y + 292277022399 = 400 * n400 + 100 * n100 + 4 * n4 + n1 :=
    ⟨400 * n400 + 100 * n100 + 4 * n4 + n1 - 292277022399, by omega⟩
  obtain ⟨c1, c2, c3, c4, c5, c6⟩ := cycle_arith n400 n100 n4 n1 Y b1 b2 b3 hY
  have hY1 : Y ≤ 10000 := by omega
  refine ⟨Y, d4, ?_, hY1, ?_, ?_⟩
  · unfold absYearDay
    simp only [secondsPerDay, daysPer400Years, daysPer100Years, daysPer4Years]
    rw [e1, e2, e3, e4, e5]
    rw [← hY, toInt64_year Y hY1]
  · rcases hd with hd | ⟨hd, hn1, hd2⟩
    · exact Or.inl hd
    · refine Or.inr ⟨hd, c4.mpr hn1, ?_⟩
      by_cases h100 : Y % 100 = 0
      · right; rw [c6]; have := c5.mp h100; omega
      · exact Or.inl h100
  · omega

theorem isLeap_cast (Y : Nat) : isLeap (Y : Int) = leapYear Y := by
  unfold isLeap leapYear
  rw [Int.tmod_eq_emod (by omega) (by norm_num), Int.tmod_eq_emod (by omega) (by norm_num),
    Int.tmod_eq_emod (by omega) (by norm_num)]
  have h4 : ((Y : Int) % 4 == 0) = (Y % 4 == 0) := by
    rw [Bool.eq_iff_iff]; simp only [beq_iff_eq]; omega
  have h100 : ((Y : Int) % 100 != 0) = (Y % 100 != 0) := by
    rw [Bool.eq_iff_iff]; simp only [bne_iff_ne, ne_eq]; omega
  have h400 : ((Y : Int) % 400 == 0) = (Y % 400 == 0) := by
    rw [Bool.eq_iff_iff]; simp only [beq_iff_eq]; omega
  rw [h4, h100, h400]

theorem monthDayOf_pair (year yday : Int) :
    (match ((year, yday) : Int × Int) with
    | (year, yday) =>
      let day := yday;
      if (Agenda.isLeap year && day == 31 + 29 - 1) = true then (year, (2 : Int), (29 : Int))
      else
        let day := if (Agenda.isLeap year && decide (day > 31 + 29 - 1)) = true then day - 1 else day;
        let month := day / 31;
        let fin := Agenda.daysBefore.getD (month + 1).toNat 0;
        match if day ≥ fin then (month + 1, fin) else (month, Agenda.daysBefore.getD month.toNat 0) with
        | (month, start) => (year, month + 1, day - start + 1)) =
     (year, (monthDayOf (isLeap year) yday).1, (monthDayOf (isLeap year) yday).2) := by
  rw [monthDayOf]
  simp only []
  split
  · rfl
  · rfl

theorem absDate_eq (abs : Nat) (Y yd : Int) (h : absYearDay abs = (Y, yd)) :
    absDate abs = (Y, (monthDayOf (isLeap Y) yd).1, (monthDayOf (isLeap Y) yd).2) := by
  rw [absDate, h]
  exact monthDayOf_pair Y yd

set_option maxRecDepth 100000 in
theorem monthDayOf_spec (leap : Bool) :
    ∀ yd : Nat, yd < 366 → (leap = true ∨ yd < 365) →
      1 ≤ (monthDayOf leap yd).1 ∧ (monthDayOf leap yd).1 ≤ 12 ∧
      1 ≤ (monthDayOf leap yd).2 ∧
      (monthDayOf leap yd).2 ≤ monthLength leap (monthDayOf leap yd).1.toNat ∧
      daysBeforeMonth leap (monthDayOf leap yd).1.toNat + ((monthDayOf leap yd).2.toNat - 1) = yd := by
  cases leap <;> decide!

set_option maxRecDepth 100000 in
theorem monthDayOf_inv (leap : Bool) :
    ∀ m : Nat, m < 13 → ∀ d : Nat, d < 32 → (1 ≤ m ∧ 1 ≤ d ∧ d ≤ monthLength leap m) →
      monthDayOf leap ((daysBeforeMonth leap m + (d - 1) : Nat) : Int) = ((m : Int), (d : Int)) := by
  cases leap <;> decide!

theorem daysBefore_eq (leap : Bool) :
    ∀ m : Nat, m < 13 → 1 ≤ m →
      (daysBefore.getD (m - 1) 0 + (if leap && decide (m ≥ 3) then 1 else 0) : Int)
        = daysBeforeMonth leap m ∧
      daysBefore.getD m 0 - daysBefore.getD (m - 1) 0 = (monthLength false m : Int) := by
  cases leap <;> decide!

theorem leapYear_iff (Y : Nat) :
    leapYear Y = true ↔ (Y % 4 = 0 ∧ (Y % 100 ≠ 0 ∨ Y % 400 = 0)) := by
  simp [leapYear]

/-- Every absolute second of the years 0 to 10000 lies on the day `absDate` names. -/
theorem absDate_spec (abs : Nat) (h0 : 9223371966548102400 ≤ abs)
    (h1 : abs < 9223371966548102400 + 86400 * 3652791) :
    ∃ Y m d : Nat, absDate abs = ((Y : Int), (m : Int), (d : Int)) ∧ Y ≤ 10000 ∧
      1 ≤ m ∧ m ≤ 12 ∧ 1 ≤ d ∧ d ≤ daysInMonth Y m ∧
      106751990353566 + daysFromCivil Y m d = abs / 86400 := by
  obtain ⟨Y, yd, hyd, hY, hleap, hsum⟩ := absYearDay_spec abs h0 h1
  have hyd1 : yd < 366 := by omega
  have hyd2 : leapYear Y = true ∨ yd < 365 := by
    rcases hleap with h | ⟨_, h⟩
    · exact Or.inr h
    · exact Or.inl ((leapYear_iff Y).mpr h)
  obtain ⟨m1, m2, d1, d2, hs⟩ := monthDayOf_spec (leapYear Y) yd hyd1 hyd2
  have hD := absDate_eq abs Y yd hyd
  rw [isLeap_cast] at hD
  generalize monthDayOf (leapYear Y) (yd : Int) = r at *
  obtain ⟨m, d⟩ := r
  simp only at m1 m2 d1 d2 hs hD
  refine ⟨Y, m.toNat, d.toNat, ?_, hY, ?_, ?_, ?_, ?_, ?_⟩
  · rw [hD, Int.toNat_of_nonneg (by omega), Int.toNat_of_nonneg (by omega)]
  · omega
  · omega
  · omega
  · unfold daysInMonth; omega
  · unfold daysFromCivil; omega

theorem norm_id (hi lo base : Int) (h0 : 0 ≤ lo) (h1 : lo < base) : norm hi lo base = (hi, lo) := by
  unfold norm
  simp only [show ¬ lo < 0 by omega, if_false, ge_iff_le, show ¬ base ≤ lo by omega]

theorem toUint64_year (Y : Nat) (h : Y ≤ 10000) :
    toUint64 (toInt64 (Y : Int) - absoluteZeroYear) = Y + 292277022399 := by
  unfold toUint64 toInt64 absoluteZeroYear
  omega

theorem daysSinceEpoch_eq (Y : Nat) (h1 : Y ≤ 10000) :
    daysSinceEpoch (Y : Int) =
      106751990353566 + (365 * Y + ((Y + 3) / 4 - (Y + 99) / 100 + (Y + 399) / 400)) := by
  unfold daysSinceEpoch
  rw [toUint64_year Y h1]
  simp only [daysPer400Years, daysPer100Years, daysPer4Years]
  omega

theorem toUint64_natCast (n : Nat) (h : n < 18446744073709551616) : toUint64 (n : Int) = n := by
  unfold toUint64
  omega

theorem toInt64_id (x : Int) (h0 : -9223372036854775808 ≤ x) (h1 : x < 9223372036854775808) :
    toInt64 x = x := by
  unfold toInt64
  omega

theorem daysBefore_bound :
    ∀ m : Nat, m < 13 → 0 ≤ daysBefore.getD m 0 ∧ daysBefore.getD m 0 ≤ 365 := by
  decide!

theorem yearStart_bound (Y : Nat) (h : Y ≤ 10000) :
    365 * Y + ((Y + 3) / 4 - (Y + 99) / 100 + (Y + 399) / 400) ≤ 3652425 := by
  omega

theorem daysBeforeMonth_bound (leap : Bool) : ∀ m : Nat, m < 13 → daysBeforeMonth leap m ≤ 335 := by
  cases leap <;> decide!

theorem Date_days (Y m : Nat) (hY : Y ≤ 10000) (hm1 : 1 ≤ m) (hm2 : m ≤ 12) :
    (if (leapYear Y && decide ((m : Int) - 1 + 1 ≥ 3)) = true then
        toUint64 (↑(106751990353566 +
          (365 * Y + ((Y + 3) / 4 - (Y + 99) / 100 + (Y + 399) / 400))) +
            daysBefore.getD ((m : Int) - 1 + 1 - 1).toNat 0) + 1
      else
        toUint64 (↑(106751990353566 +
          (365 * Y + ((Y + 3) / 4 - (Y + 99) / 100 + (Y + 399) / 400))) +
            daysBefore.getD ((m : Int) - 1 + 1 - 1).toNat 0)) =
      106751990353566 + (365 * Y + ((Y + 3) / 4 - (Y + 99) / 100 + (Y + 399) / 400))
        + daysBeforeMonth (leapYear Y) m := by
  have e1 : ((m : Int) - 1 + 1 - 1).toNat = m - 1 := by omega
  have e2 : decide ((m : Int) - 1 + 1 ≥ 3) = decide (m ≥ 3) := decide_eq_decide.mpr (by omega)
  obtain ⟨hb, _⟩ := daysBefore_eq (leapYear Y) m (by omega) hm1
  obtain ⟨hB0, hB1⟩ := daysBefore_bound (m - 1) (by omega)
  have hS := yearStart_bound Y hY
  rw [e1, e2]
  generalize 365 * Y + ((Y + 3) / 4 - (Y + 99) / 100 + (Y + 399) / 400) = S at *
  generalize daysBefore.getD (m - 1) 0 = B at *
  generalize daysBeforeMonth (leapYear Y) m = M at *
  obtain ⟨b, rfl⟩ : ∃ b : Nat, B = b := ⟨B.toNat, by omega⟩
  have e3 : ((106751990353566 + S : Nat) : Int) + (b : Int) = ((106751990353566 + S + b : Nat) : Int) := by
    push_cast; ring
  rw [e3, toUint64_natCast _ (by omega)]
  split
  · rename_i hc; rw [if_pos hc] at hb; omega
  · rename_i hc; rw [if_neg hc] at hb; omega

theorem Date_eq (Y m d h mi : Nat) (hY : Y ≤ 10000) (hm1 : 1 ≤ m) (hm2 : m ≤ 12)
    (hd1 : 1 ≤ d) (hd2 : d ≤ 31) (hh : h < 24) (hmi : mi < 60) :
    Date Y m d h mi 0 0 UTC =
      ⟨0, (((106751990353566 + daysFromCivil Y m d) * 86400 + h * 3600 + mi * 60 : Nat) : Int)
        - 9223371966579724800, UTC⟩ := by
  unfold Date
  simp only [norm_id (Y : Int) ((m : Int) - 1) 12 (by omega) (by omega),
    norm_id 0 0 1000000000 (by omega) (by omega), norm_id (mi : Int) 0 60 (by omega) (by omega),
    norm_id (h : Int) (mi : Int) 60 (by omega) (by omega),
    norm_id (d : Int) (h : Int) 24 (by omega) (by omega), daysSinceEpoch_eq Y hY, isLeap_cast]
  rw [Date_days Y m hY hm1 hm2]
  have hS := yearStart_bound Y hY
  have hM := daysBeforeMonth_bound (leapYear Y) m (by omega)
  unfold daysFromCivil
  generalize 365 * Y + ((Y + 3) / 4 - (Y + 99) / 100 + (Y + 399) / 400) = S at *
  generalize daysBeforeMonth (leapYear Y) m = M at *
  have e1 : ((106751990353566 + S + M : Nat) : Int) + ((d : Int) - 1)
      = ((106751990353566 + S + M + (d - 1) : Nat) : Int) := by omega
  rw [e1, toUint64_natCast _ (by omega)]
  have e2 : ((106751990353566 + S + M + (d - 1) : Nat) : Int) * (secondsPerDay : Int)
      = (((106751990353566 + S + M + (d - 1)) * 86400 : Nat) : Int) := by
    simp only [secondsPerDay]; push_cast; ring
  rw [e2, toUint64_natCast _ (by omega)]
  have e3 : (((106751990353566 + S + M + (d - 1)) * 86400 : Nat) : Int)
      + ((h : Int) * (secondsPerHour : Int) + (mi : Int) * (secondsPerMinute : Int) + 0)
      = (((106751990353566 + S + M + (d - 1)) * 86400 + h * 3600 + mi * 60 : Nat) : Int) := by
    simp only [secondsPerHour, secondsPerMinute]; push_cast; ring
  rw [e3, toUint64_natCast _ (by omega)]
  have e4 : (106751990353566 + (S + M + (d - 1))) = 106751990353566 + S + M + (d - 1) := by omega
  rw [e4]
  have hA0 : 9223371966548102400 ≤ (106751990353566 + S + M + (d - 1)) * 86400 + h * 3600 + mi * 60 := by
    omega
  have hA1 : (106751990353566 + S + M + (d - 1)) * 86400 + h * 3600 + mi * 60
      < 9223371966548102400 + 86400 * 3652791 := by omega
  generalize (106751990353566 + S + M + (d - 1)) * 86400 + h * 3600 + mi * 60 = A at *
  have e5 : (A : Int) + (absoluteToInternal + internalToUnix) = (A : Int) - 9223372028715321600 := by
    simp only [absoluteToInternal, internalToUnix]; omega
  have e6 : (A : Int) - 9223372028715321600 - UTC.offset = (A : Int) - 9223372028715321600 := by
    simp only [UTC]; omega
  have e7 : (A : Int) - 9223372028715321600 + unixToInternal = (A : Int) - 9223371966579724800 := by
    simp only [unixToInternal]; omega
  rw [e5, toInt64_id ((A : Int) - 9223372028715321600) (by omega) (by omega), e6,
    toInt64_id ((A : Int) - 9223372028715321600) (by omega) (by omega), e7,
    toInt64_id ((A : Int) - 9223371966579724800) (by omega) (by omega)]

theorem yearStart_step (Y : Nat) :
    365 * (Y + 1) + ((Y + 1 + 3) / 4 - (Y + 1 + 99) / 100 + (Y + 1 + 399) / 400)
      = 365 * Y + ((Y + 3) / 4 - (Y + 99) / 100 + (Y + 399) / 400)
        + 365 + (if leapYear Y then 1 else 0) := by
  have h := leapYear_iff Y
  have s4 : (Y + 1 + 3) / 4 = (Y + 3) / 4 + (if Y % 4 = 0 then 1 else 0) := by
    split <;> omega
  have s100 : (Y + 1 + 99) / 100 = (Y + 99) / 100 + (if Y % 100 = 0 then 1 else 0) := by
    split <;> omega
  have s400 : (Y + 1 + 399) / 400 = (Y + 399) / 400 + (if Y % 400 = 0 then 1 else 0) := by
    split <;> omega
  have o1 : (Y + 99) / 100 ≤ (Y + 3) / 4 := by omega
  have o2 : Y % 400 = 0 → Y % 100 = 0 := by omega
  have o3 : Y % 100 = 0 → Y % 4 = 0 := by omega
  rw [s4, s100, s400]
  generalize (Y + 3) / 4 = a at *
  generalize (Y + 99) / 100 = b at *
  generalize (Y + 399) / 400 = c at *
  clear s4 s100 s400
  by_cases hl : leapYear Y = true
  · have hh := h.mp hl
    rw [if_pos hl]
    clear h
    split_ifs <;> omega
  · have hh : ¬ (Y % 4 = 0 ∧ (Y % 100 ≠ 0 ∨ Y % 400 = 0)) := fun c => hl (h.mpr c)
    rw [if_neg hl]
    clear h
    split_ifs <;> omega

theorem yearStart_mono (Y Z : Nat) (h : Y ≤ Z) :
    365 * Y + ((Y + 3) / 4 - (Y + 99) / 100 + (Y + 399) / 400)
      ≤ 365 * Z + ((Z + 3) / 4 - (Z + 99) / 100 + (Z + 399) / 400) := by
  induction Z, h using Nat.le_induction with
  | base => exact le_refl _
  | succ Z hZ ih => rw [yearStart_step Z]; omega

/-- Two days of the calendar at the same distance from 0000-01-01 are in the same year. -/
theorem yearStart_inj (Y Z a b : Nat)
    (ha : a < 365 + (if leapYear Y then 1 else 0)) (hb : b < 365 + (if leapYear Z then 1 else 0))
    (h : 365 * Y + ((Y + 3) / 4 - (Y + 99) / 100 + (Y + 399) / 400) + a
      = 365 * Z + ((Z + 3) / 4 - (Z + 99) / 100 + (Z + 399) / 400) + b) :
    Y = Z ∧ a = b := by
  have key : ∀ Y Z a b : Nat, a < 365 + (if leapYear Y then 1 else 0) →
      365 * Y + ((Y + 3) / 4 - (Y + 99) / 100 + (Y + 399) / 400) + a
        = 365 * Z + ((Z + 3) / 4 - (Z + 99) / 100 + (Z + 399) / 400) + b → ¬ Y < Z := by
    intro Y Z a b ha h hlt
    have h1 := yearStart_mono (Y + 1) Z hlt
    rw [yearStart_step Y] at h1
    omega
  have e : Y = Z := by
    rcases Nat.lt_trichotomy Y Z with c | c | c
    · exact absurd c (key Y Z a b ha h)
    · exact c
    · exact absurd c (key Z Y b a hb h.symm)
  subst e
  exact ⟨rfl, by omega⟩

theorem yday_bound (leap : Bool) :
    ∀ m : Nat, m < 13 → ∀ d : Nat, d < 32 → (1 ≤ m ∧ 1 ≤ d ∧ d ≤ monthLength leap m) →
      daysBeforeMonth leap m + (d - 1) < 365 + (if leap then 1 else 0) := by
  cases leap <;> decide!

theorem monthLength_le (leap : Bool) : ∀ m : Nat, m < 13 → monthLength leap m ≤ 31 := by
  cases leap <;> decide!

theorem daysFromCivil_bound (Y m d : Nat) (hY : Y ≤ 10000) (hm1 : 1 ≤ m) (hm2 : m ≤ 12)
    (hd1 : 1 ≤ d) (hd2 : d ≤ daysInMonth Y m) : daysFromCivil Y m d < 3652791 := by
  have h1 := yearStart_bound Y hY
  have h2 := daysBeforeMonth_bound (leapYear Y) m (by omega)
  have h3 := monthLength_le (leapYear Y) m (by omega)
  unfold daysInMonth at hd2
  unfold daysFromCivil
  omega

/-- Go `absDate` inverts the day count of the calendar. -/
theorem absDate_civil (Y m d secs : Nat) (hY : Y ≤ 10000) (hm1 : 1 ≤ m) (hm2 : m ≤ 12)
    (hd1 : 1 ≤ d) (hd2 : d ≤ daysInMonth Y m) (hs : secs < 86400) :
    absDate ((106751990353566 + daysFromCivil Y m d) * 86400 + secs)
      = ((Y : Int), (m : Int), (d : Int)) := by
  have hb := daysFromCivil_bound Y m d hY hm1 hm2 hd1 hd2
  have h3 := monthLength_le (leapYear Y) m (by omega)
  have hd3 : d ≤ monthLength (leapYear Y) m := hd2
  have hyd := yday_bound (leapYear Y) m (by omega) d (by omega) ⟨hm1, hd1, hd3⟩
  have hinv := monthDayOf_inv (leapYear Y) m (by omega) d (by omega) ⟨hm1, hd1, hd3⟩
  generalize hA : (106751990353566 + daysFromCivil Y m d) * 86400 + secs = A
  have hdiv : A / 86400 = 106751990353566 + daysFromCivil Y m d := by omega
  obtain ⟨Z, yd, hZ, hZ1, hleap, hsum⟩ := absYearDay_spec A (by omega) (by omega)
  rw [hdiv] at hsum
  unfold daysFromCivil at hsum
  have hyd2 : yd < 365 + (if leapYear Z then 1 else 0) := by
    rcases hleap with c | ⟨c1, c2⟩
    · omega
    · rw [if_pos ((leapYear_iff Z).mpr c2)]; omega
  obtain ⟨e1, e2⟩ := yearStart_inj Z Y yd (daysBeforeMonth (leapYear Y) m + (d - 1)) hyd2 hyd
    (by omega)
  subst e1
  rw [absDate_eq A Z yd hZ, isLeap_cast, e2, hinv]

theorem absClock_eq (A h mi s : Nat) (_ : h < 24) (hmi : mi < 60) (hs : s < 60)
    (hA : A % 86400 = h * 3600 + mi * 60 + s) :
    absClock A = ((h : Int), (mi : Int), (s : Int)) := by
  unfold absClock
  simp only [secondsPerDay, secondsPerHour, secondsPerMinute, hA, Prod.mk.injEq]
  push_cast
  refine ⟨?_, ?_, ?_⟩ <;> omega

theorem Time_abs_eq (n : Int) (A : Nat) (h0 : 9223371966548102400 ≤ A)
    (h1 : A < 9223371966548102400 + 86400 * 3652791) :
    Time.abs ⟨n, (A : Int) - 9223371966579724800, UTC⟩ = A := by
  unfold Time.abs Time.unixSec
  simp only [UTC, internalToUnix, unixToInternal, internalToAbsolute]
  have e1 : (A : Int) - 9223371966579724800 + -62135596800 = (A : Int) - 9223372028715321600 := by
    omega
  have e2 : (A : Int) - 9223372028715321600 + 0 = (A : Int) - 9223372028715321600 := by omega
  have e3 : (A : Int) - 9223372028715321600 + (62135596800 + 9223371966579724800) = (A : Int) := by
    omega
  rw [e1, toInt64_id ((A : Int) - 9223372028715321600) (by omega) (by omega), e2,
    toInt64_id ((A : Int) - 9223372028715321600) (by omega) (by omega), e3,
    toUint64_natCast A (by omega)]

theorem Time_Add_hour (A : Nat) (h0 : 9223371966548102400 ≤ A)
    (h1 : A < 9223371966548102400 + 86400 * 3652791) :
    Time.Add ⟨0, (A : Int) - 9223371966579724800, UTC⟩ (1 * Hour)
      = ⟨0, ((A + 3600 : Nat) : Int) - 9223371966579724800, UTC⟩ := by
  unfold Time.Add
  have d1 : (1 * Hour).tdiv 1000000000 = 3600 := by decide
  have d2 : (1 * Hour).tmod 1000000000 = 0 := by decide
  simp only [d1, d2]
  rw [if_neg (show ¬ ((0 : Int) + 0 ≥ 1000000000) by omega),
    if_neg (show ¬ ((0 : Int) + 0 < 0) by omega)]
  simp only []
  have e1 : (A : Int) - 9223371966579724800 + 3600 = ((A + 3600 : Nat) : Int) - 9223371966579724800 := by
    omega
  rw [e1, toInt64_id _ (by omega) (by omega)]
  have e2 : decide (((A + 3600 : Nat) : Int) - 9223371966579724800 > (A : Int) - 9223371966579724800)
      = true := decide_eq_true (by omega)
  have e3 : decide ((3600 : Int) > 0) = true := by decide
  rw [e2, e3]
  simp

theorem isDigit_cons_zero (c : Char) (r : List Char) : isDigit (c :: r) 0 = isDig c := rfl

theorem isDigit_cons_succ (c : Char) (r : List Char) (i : Nat) :
    isDigit (c :: r) (i + 1) = isDigit r i := rfl

theorem isDigit_nil (i : Nat) : isDigit [] i = false := rfl

theorem digitAt_cons_zero (c : Char) (r : List Char) : digitAt (c :: r) 0 = (c.toNat : Int) - 48 := rfl

theorem digitAt_cons_succ (c : Char) (r : List Char) (i : Nat) :
    digitAt (c :: r) (i + 1) = digitAt r i := rfl

theorem isDig_iff (c : Char) : isDig c = true ↔ 48 ≤ c.toNat ∧ c.toNat ≤ 57 := by
  simp [isDig]

theorem digitVal_cast (c : Char) (h : isDig c = true) : (c.toNat : Int) - 48 = (digitVal c : Int) := by
  have := (isDig_iff c).mp h
  unfold digitVal
  omega

theorem digitVal_le (c : Char) (h : isDig c = true) : digitVal c ≤ 9 := by
  have := (isDig_iff c).mp h
  unfold digitVal
  omega

theorem skip_one (v r : List Char) (c : Char) : skip v [c] = some r ↔ v = c :: r := by
  cases v with
  | nil => simp [skip]
  | cons a v => 
    simp only [skip, bne_iff_ne, ne_eq, ite_not]
    by_cases h : a = c
    · simp [h]
    · simp [h]

theorem getnum_fixed (v : List Char) (p : Int × List Char) :
    getnum v true = some p ↔
      ∃ a b r, v = a :: b :: r ∧ isDig a = true ∧ isDig b = true ∧
        p = (((twoDigits a b : Nat) : Int), r) := by
  unfold getnum
  rcases v with _ | ⟨a, _ | ⟨b, r⟩⟩
  · simp [isDigit_nil]
  · simp only [isDigit_cons_zero, isDigit_cons_succ, isDigit_nil]
    cases isDig a <;> simp
  · simp only [isDigit_cons_zero, isDigit_cons_succ, digitAt_cons_zero, digitAt_cons_succ]
    by_cases ha : isDig a = true <;> by_cases hb : isDig b = true
    · simp only [ha, hb, Bool.not_true, Bool.false_eq_true, if_false, List.drop_succ_cons,
        List.drop_zero, Option.some.injEq, List.cons.injEq]
      rw [digitVal_cast a ha, digitVal_cast b hb]
      constructor
      · rintro rfl
        refine ⟨a, b, r, ⟨rfl, rfl, rfl⟩, ha, hb, ?_⟩
        simp only [twoDigits]; push_cast; ring_nf
      · rintro ⟨a', b', r', ⟨rfl, rfl, rfl⟩, _, _, rfl⟩
        simp only [twoDigits]; push_cast; ring_nf
    · simp [ha, hb]
    · simp [ha, hb]
    · simp [ha, hb]

theorem getnum_free (v : List Char) (p : Int × List Char) :
    getnum v false = some p ↔
      (∃ a b r, v = a :: b :: r ∧ isDig a = true ∧ isDig b = true ∧
        p = (((twoDigits a b : Nat) : Int), r)) ∨
      (∃ a r, v = a :: r ∧ isDig a = true ∧ isDigit r 0 = false ∧
        p = (((digitVal a : Nat) : Int), r)) := by
  unfold getnum
  rcases v with _ | ⟨a, r⟩
  · simp [isDigit_nil]
  · simp only [isDigit_cons_zero, isDigit_cons_succ, digitAt_cons_zero, digitAt_cons_succ]
    by_cases ha : isDig a = true
    · by_cases hb : isDigit r 0 = true
      · rcases r with _ | ⟨b, r⟩
        · simp [isDigit_nil] at hb
        · rw [isDigit_cons_zero] at hb
          simp only [ha, isDigit_cons_zero, hb, Bool.not_true, Bool.false_eq_true, if_false,
            List.drop_succ_cons, List.drop_zero, Option.some.injEq, List.cons.injEq,
            digitAt_cons_zero]
          rw [digitVal_cast a ha, digitVal_cast b hb]
          constructor
          · rintro rfl
            left
            refine ⟨a, b, r, ⟨rfl, rfl, rfl⟩, ha, hb, ?_⟩
            simp only [twoDigits]; push_cast; ring_nf
          · rintro (⟨a', b', r', ⟨rfl, rfl, rfl⟩, _, _, rfl⟩ | ⟨a', r', ⟨rfl, rfl⟩, _, h, _⟩)
            · simp only [twoDigits]; push_cast; ring_nf
            · rw [isDigit_cons_zero, hb] at h; exact absurd h (by simp)
      · have hb' : isDigit r 0 = false := by simpa using hb
        simp only [ha, hb', Bool.not_true, Bool.false_eq_true, if_false, Bool.not_false, if_true,
          List.drop_succ_cons, List.drop_zero, Option.some.injEq, List.cons.injEq]
        rw [digitVal_cast a ha]
        constructor
        · rintro rfl
          right
          exact ⟨a, r, ⟨rfl, rfl⟩, ha, hb', rfl⟩
        · rintro (⟨a', b', r', ⟨rfl, rfl⟩, _, h, _⟩ | ⟨a', r', ⟨rfl, rfl⟩, _, _, rfl⟩)
          · rw [isDigit_cons_zero] at hb'; rw [hb'] at h; exact absurd h (by simp)
          · rfl
    · simp only [ha, Bool.not_false, if_true, Bool.false_eq_true, false_and, and_false,
        exists_false, or_self, exists_const, iff_false]
      constructor
      · exact fun h => absurd h (by simp)
      · rintro (⟨a', b', r', ⟨rfl, rfl⟩, h, _⟩ | ⟨a', r', ⟨rfl, rfl⟩, h, _⟩) <;> exact absurd h ha

theorem leadingInt_dig (c : Char) (r : List Char) (x : Nat) (h : isDig c = true)
    (hx : x ≤ 100000) : leadingInt (c :: r) x = leadingInt r (10 * x + digitVal c) := by
  have hc := (isDig_iff c).mp h
  rw [leadingInt]
  have c1 : (decide (c.toNat < 48) || decide (c.toNat > 57)) = false := by
    simp only [Bool.or_eq_false_iff, decide_eq_false_iff_not]; omega
  have c2 : ¬ x > 9223372036854775808 / 10 := by omega
  have c3 : ¬ x * 10 + c.toNat - 48 > 9223372036854775808 := by omega
  have c4 : x * 10 + c.toNat - 48 = 10 * x + digitVal c := by unfold digitVal; omega
  have c5 : ¬ 10 * x + digitVal c > 9223372036854775808 := by omega
  simp only [c1, Bool.false_eq_true, if_false, c2, c4, c5]

theorem leadingInt_nondig (c : Char) (r : List Char) (x : Nat) (h : isDig c = false) :
    leadingInt (c :: r) x = some (x, c :: r) := by
  rw [leadingInt]
  have c1 : (decide (c.toNat < 48) || decide (c.toNat > 57)) = true := by
    simp only [isDig, Bool.and_eq_false_iff, decide_eq_false_iff_not] at h
    simp only [Bool.or_eq_true, decide_eq_true_eq]; omega
  simp only [c1, if_true]

theorem atoi_dig (a : Char) (r : List Char) (h : isDig a = true) :
    atoi (a :: r) = match leadingInt (a :: r) 0 with
      | some (q, []) => some (q : Int)
      | _ => none := by
  have hc := (isDig_iff a).mp h
  have n1 : (a == '-') = false := by
    rw [beq_eq_false_iff_ne]; rintro rfl; revert hc; decide
  have n2 : (a == '+') = false := by
    rw [beq_eq_false_iff_ne]; rintro rfl; revert hc; decide
  unfold atoi
  simp only [n1, n2, Bool.or_self, Bool.false_eq_true, if_false]

theorem atoi_four (a b c d : Char) (y : Int) (ha : isDig a = true) :
    atoi [a, b, c, d] = some y ↔
      isDig b = true ∧ isDig c = true ∧ isDig d = true ∧
        y = ((1000 * digitVal a + 100 * digitVal b + 10 * digitVal c + digitVal d : Nat) : Int) := by
  have va := digitVal_le a ha
  rw [atoi_dig a _ ha, leadingInt_dig a _ 0 ha (by omega)]
  by_cases hb : isDig b = true
  · have vb := digitVal_le b hb
    rw [leadingInt_dig b _ _ hb (by omega)]
    by_cases hc : isDig c = true
    · have vc := digitVal_le c hc
      rw [leadingInt_dig c _ _ hc (by omega)]
      by_cases hd : isDig d = true
      · rw [leadingInt_dig d _ _ hd (by omega)]
        simp only [leadingInt, hb, hc, hd, true_and, Option.some.injEq]
        constructor
        · rintro rfl; congr 1; ring
        · rintro rfl; congr 1; ring
      · rw [leadingInt_nondig d _ _ (by simpa using hd)]
        simp [hd]
    · rw [leadingInt_nondig c _ _ (by simpa using hc)]
      simp [hc]
  · rw [leadingInt_nondig b _ _ (by simpa using hb)]
    simp [hb]

theorem year_step (v : List Char) (y : Int) :
    ((decide (v.length < 4) || !isDigit v 0) = false ∧ atoi (v.take 4) = some y) ↔
      ∃ a b c d r, v = a :: b :: c :: d :: r ∧ isDig a = true ∧ isDig b = true ∧
        isDig c = true ∧ isDig d = true ∧
        y = ((1000 * digitVal a + 100 * digitVal b + 10 * digitVal c + digitVal d : Nat) : Int) := by
  rcases v with _ | ⟨a, _ | ⟨b, _ | ⟨c, _ | ⟨d, r⟩⟩⟩⟩
  · simp
  · simp
  · simp
  · simp
  · simp only [List.length_cons, isDigit_cons_zero, List.take_succ_cons, List.take_zero]
    by_cases ha : isDig a = true
    · have hl : decide (r.length + 1 + 1 + 1 + 1 < 4) = false := by
        simp only [decide_eq_false_iff_not]; omega
      simp only [hl, ha, Bool.not_true, Bool.or_self, true_and, atoi_four a b c d y ha]
      constructor
      · rintro ⟨hb, hc, hd, rfl⟩
        exact ⟨a, b, c, d, r, rfl, ha, hb, hc, hd, rfl⟩
      · rintro ⟨a', b', c', d', r', ⟨rfl, rfl, rfl, rfl, rfl⟩, _, hb, hc, hd, rfl⟩
        exact ⟨hb, hc, hd, rfl⟩
    · have ha' : isDig a = false := by simpa using ha
      simp only [ha', Bool.not_false, Bool.or_true, Bool.true_eq_false, false_and, false_iff]
      rintro ⟨a', b', c', d', r', ⟨rfl, rfl, rfl, rfl, rfl⟩, h, _⟩
      exact absurd h ha

theorem ite_none_eq_some {α : Type} (c : Prop) [Decidable c] (x : Option α) (t : α) :
    (if c then none else x) = some t ↔ ¬ c ∧ x = some t := by
  by_cases h : c <;> simp [h]

theorem skip_nil (v : List Char) : skip v [] = some v := by
  cases v <;> rfl

theorem monthLength_ne_two (leap : Bool) : 
    ∀ m : Nat, m < 13 → m ≠ 2 → monthLength leap m = monthLength false m := by
  cases leap <;> decide!

theorem daysIn_eq (Y M : Nat) (h1 : 1 ≤ M) (h2 : M ≤ 12) :
    daysIn (M : Int) (Y : Int) = (daysInMonth Y M : Int) := by
  unfold daysIn daysInMonth
  rw [isLeap_cast]
  obtain ⟨_, hb⟩ := daysBefore_eq false M (by omega) h1
  have e1 : ((M : Int) - 1).toNat = M - 1 := by omega
  have e2 : ((M : Int)).toNat = M := by omega
  rw [e1, e2, hb]
  by_cases hm : M = 2
  · subst hm
    cases leapYear Y <;> decide
  · have e3 : ((M : Int) == 2) = false := by
      rw [beq_eq_false_iff_ne]; omega
    simp only [e3, Bool.false_and, Bool.false_eq_true, if_false]
    rw [monthLength_ne_two (leapYear Y) M (by omega) hm]

/-- What a text that `Parse` accepts looks like. -/
theorem Parse_shape (s : List Char) (t : Time) (h : Parse s = some t) :
    ∃ y1 y2 y3 y4 m1 m2 d1 d2 n1 n2 hh H,
      s = y1 :: y2 :: y3 :: y4 :: '-' :: m1 :: m2 :: '-' :: d1 :: d2 :: 'T' :: (hh ++ [':', n1, n2]) ∧
      readFecha [y1, y2, y3, y4, '-', m1, m2, '-', d1, d2] =
        some (1000 * digitVal y1 + 100 * digitVal y2 + 10 * digitVal y3 + digitVal y4,
          twoDigits m1 m2, twoDigits d1 d2) ∧
      readHora (hh ++ [':', n1, n2]) = some (H, twoDigits n1 n2) ∧
      validFields (1000 * digitVal y1 + 100 * digitVal y2 + 10 * digitVal y3 + digitVal y4)
        (twoDigits m1 m2) (twoDigits d1 d2) H (twoDigits n1 n2) ∧
      t = Date ((1000 * digitVal y1 + 100 * digitVal y2 + 10 * digitVal y3 + digitVal y4 : Nat) : Int)
        (twoDigits m1 m2 : Nat) (twoDigits d1 d2 : Nat) (H : Nat) (twoDigits n1 n2 : Nat) 0 0 UTC := by
  unfold Parse at h
  simp only [skip_nil, Option.some_bind, ite_none_eq_some, Option.bind_eq_some, skip_one,
    getnum_fixed, getnum_free] at h
  obtain ⟨hy, Y, hY, r1, hr1, p2, ⟨m1, m2, r2, rfl, hm1, hm2, rfl⟩, hM, r3, hr3, p4,
    ⟨d1, d2, r4, rfl, hd1, hd2, rfl⟩, r5, hr5, p6, hH, hHr, r7, hr7, p8,
    ⟨n1, n2, r8, rfl, hn1, hn2, rfl⟩, hN, hlen, hD, ht⟩ := h
  obtain ⟨y1, y2, y3, y4, r0, rfl, hy1, hy2, hy3, hy4, rfl⟩ :=
    (year_step s Y).mp ⟨by simpa using hy, hY⟩
  simp only [List.drop_succ_cons, List.drop_zero] at hr1
  subst hr1
  simp only at hr3 hr5 hM hD hN hlen ht
  subst hr3
  subst hr5
  have hr8 : r8 = [] := by
    cases r8 with
    | nil => rfl
    | cons a r => simp at hlen
  subst hr8
  clear hy hY hlen
  have hM' : 1 ≤ twoDigits m1 m2 ∧ twoDigits m1 m2 ≤ 12 := by
    simp only [Bool.or_eq_true, decide_eq_true_eq, not_or, not_le, not_lt] at hM
    omega
  rw [daysIn_eq _ _ hM'.1 hM'.2] at hD
  have hD' : 1 ≤ twoDigits d1 d2 ∧ twoDigits d1 d2 ≤ daysInMonth
      (1000 * digitVal y1 + 100 * digitVal y2 + 10 * digitVal y3 + digitVal y4) (twoDigits m1 m2) := by
    simp only [Bool.or_eq_true, decide_eq_true_eq, not_or, not_le, not_lt, gt_iff_lt] at hD
    omega
  have hN' : twoDigits n1 n2 < 60 := by
    simp only [Bool.or_eq_true, decide_eq_true_eq, not_or, not_le, not_lt] at hN
    omega
  have hF : readFecha [y1, y2, y3, y4, '-', m1, m2, '-', d1, d2] =
      some (1000 * digitVal y1 + 100 * digitVal y2 + 10 * digitVal y3 + digitVal y4,
        twoDigits m1 m2, twoDigits d1 d2) := by
    simp [readFecha, hy1, hy2, hy3, hy4, hm1, hm2, hd1, hd2]
  simp only [Option.some.injEq] at ht
  rcases hH with ⟨h1, h2, r, rfl, hh1, hh2, rfl⟩ | ⟨h1, r, rfl, hh1, -, rfl⟩
  · simp only at hr7 hHr ht
    subst hr7
    have hH' : twoDigits h1 h2 < 24 := by
      simp only [Bool.or_eq_true, decide_eq_true_eq, not_or, not_le, not_lt] at hHr
      omega
    refine ⟨y1, y2, y3, y4, m1, m2, d1, d2, n1, n2, [h1, h2], twoDigits h1 h2, rfl, hF, ?_,
      ⟨hM'.1, hM'.2, hD'.1, hD'.2, hH', hN'⟩, ht.symm⟩
    simp [readHora, hh1, hh2, hn1, hn2]
  · simp only at hr7 hHr ht
    subst hr7
    have hH' : digitVal h1 < 24 := by
      simp only [Bool.or_eq_true, decide_eq_true_eq, not_or, not_le, not_lt] at hHr
      omega
    refine ⟨y1, y2, y3, y4, m1, m2, d1, d2, n1, n2, [h1], digitVal h1, rfl, hF, ?_,
      ⟨hM'.1, hM'.2, hD'.1, hD'.2, hH', hN'⟩, ht.symm⟩
    simp [readHora, hh1, hn1, hn2]

theorem readFecha_some (f : List Char) (Y M D : Nat) (h : readFecha f = some (Y, M, D)) :
    ∃ y1 y2 y3 y4 m1 m2 d1 d2, f = [y1, y2, y3, y4, '-', m1, m2, '-', d1, d2] ∧
      isDig y1 = true ∧ isDig y2 = true ∧ isDig y3 = true ∧ isDig y4 = true ∧
      isDig m1 = true ∧ isDig m2 = true ∧ isDig d1 = true ∧ isDig d2 = true ∧
      Y = 1000 * digitVal y1 + 100 * digitVal y2 + 10 * digitVal y3 + digitVal y4 ∧
      M = twoDigits m1 m2 ∧ D = twoDigits d1 d2 := by
  rcases f with _ | ⟨y1, _ | ⟨y2, _ | ⟨y3, _ | ⟨y4, _ | ⟨s1, _ | ⟨m1, _ | ⟨m2, _ | ⟨s2, _ |
    ⟨d1, _ | ⟨d2, _ | ⟨e, r⟩⟩⟩⟩⟩⟩⟩⟩⟩⟩⟩ <;> try (simp [readFecha] at h; done)
  simp only [readFecha] at h
  split at h
  · rename_i hc
    obtain ⟨a1, a2, a3, a4, rfl, a5, a6, rfl, a7, a8⟩ := hc
    simp only [Option.some.injEq, Prod.mk.injEq] at h
    obtain ⟨rfl, rfl, rfl⟩ := h
    exact ⟨y1, y2, y3, y4, m1, m2, d1, d2, rfl, a1, a2, a3, a4, a5, a6, a7, a8, rfl, rfl, rfl⟩
  · exact absurd h (by simp)

theorem readHora_some (g : List Char) (H N : Nat) (h : readHora g = some (H, N)) :
    ∃ hh n1 n2, g = hh ++ [':', n1, n2] ∧ isDig n1 = true ∧ isDig n2 = true ∧
      N = twoDigits n1 n2 ∧
      ((∃ h1 h2, hh = [h1, h2] ∧ isDig h1 = true ∧ isDig h2 = true ∧ H = twoDigits h1 h2) ∨
       (∃ h1, hh = [h1] ∧ isDig h1 = true ∧ H = digitVal h1)) := by
  rcases g with _ | ⟨c1, _ | ⟨c2, _ | ⟨c3, _ | ⟨c4, _ | ⟨c5, _ | ⟨e, r⟩⟩⟩⟩⟩⟩ <;>
    try (simp [readHora] at h; done)
  · simp only [readHora] at h
    split at h
    · rename_i hc
      obtain ⟨a1, rfl, a2, a3⟩ := hc
      simp only [Option.some.injEq, Prod.mk.injEq] at h
      obtain ⟨rfl, rfl⟩ := h
      exact ⟨[c1], c3, c4, rfl, a2, a3, rfl, Or.inr ⟨c1, rfl, a1, rfl⟩⟩
    · exact absurd h (by simp)
  · simp only [readHora] at h
    split at h
    · rename_i hc
      obtain ⟨a1, a2, rfl, a3, a4⟩ := hc
      simp only [Option.some.injEq, Prod.mk.injEq] at h
      obtain ⟨rfl, rfl⟩ := h
      exact ⟨[c1, c2], c4, c5, rfl, a3, a4, rfl, Or.inl ⟨c1, c2, rfl, a1, a2, rfl⟩⟩
    · exact absurd h (by simp)

theorem getnum_two (a b : Char) (r : List Char) (fixed : Bool) (ha : isDig a = true)
    (hb : isDig b = true) : getnum (a :: b :: r) fixed = some (((twoDigits a b : Nat) : Int), r) := by
  cases fixed
  · exact (getnum_free _ _).mpr (Or.inl ⟨a, b, r, rfl, ha, hb, rfl⟩)
  · exact (getnum_fixed _ _).mpr ⟨a, b, r, rfl, ha, hb, rfl⟩

theorem getnum_one (a : Char) (r : List Char) (ha : isDig a = true) :
    getnum (a :: ':' :: r) false = some (((digitVal a : Nat) : Int), ':' :: r) :=
  (getnum_free _ _).mpr (Or.inr ⟨a, ':' :: r, rfl, ha, by rw [isDigit_cons_zero]; decide, rfl⟩)

theorem skip_cons (c : Char) (r : List Char) : skip (c :: r) [c] = some r :=
  (skip_one _ _ _).mpr rfl

/-- The texts `Parse` accepts: a date and a time of the pattern, in range. -/
theorem Parse_of_fields (f g : List Char) (Y M D H N : Nat)
    (hf : readFecha f = some (Y, M, D)) (hg : readHora g = some (H, N))
    (hv : validFields Y M D H N) :
    Parse (f ++ 'T' :: g) = some (Date Y M D H N 0 0 UTC) := by
  obtain ⟨y1, y2, y3, y4, m1, m2, d1, d2, rfl, hy1, hy2, hy3, hy4, hm1, hm2, hd1, hd2, rfl, rfl,
    rfl⟩ := readFecha_some f Y M D hf
  obtain ⟨hh, n1, n2, rfl, hn1, hn2, rfl, hH⟩ := readHora_some g H N hg
  obtain ⟨v1, v2, v3, v4, v5, v6⟩ := hv
  have c1 : ¬ ((twoDigits m1 m2 : Int) ≤ 0 ∨ (12 : Int) < (twoDigits m1 m2 : Nat)) := by omega
  have c2 : ¬ (((H : Nat) : Int) < 0 ∨ (24 : Int) ≤ (H : Nat)) := by omega
  have c3 : ¬ (((twoDigits n1 n2 : Nat) : Int) < 0 ∨ (60 : Int) ≤ (twoDigits n1 n2 : Nat)) := by omega
  have c4 : ¬ (((twoDigits d1 d2 : Nat) : Int) < 1 ∨ ((twoDigits d1 d2 : Nat) : Int) >
      daysIn (twoDigits m1 m2 : Nat)
        ((1000 * digitVal y1 + 100 * digitVal y2 + 10 * digitVal y3 + digitVal y4 : Nat) : Int)) := by
    rw [daysIn_eq _ _ v1 v2]; omega
  rcases hH with ⟨h1, h2, rfl, hh1, hh2, rfl⟩ | ⟨h1, rfl, hh1, rfl⟩
  · obtain ⟨hy0, hyear⟩ := (year_step (y1 :: y2 :: y3 :: y4 :: '-' :: m1 :: m2 :: '-' :: d1 :: d2
      :: 'T' :: h1 :: h2 :: [':', n1, n2]) _).mpr ⟨y1, y2, y3, y4, _, rfl, hy1, hy2, hy3, hy4, rfl⟩
    unfold Parse
    simp only [List.cons_append, List.nil_append, skip_nil, Option.some_bind, hy0,
      Bool.false_eq_true, if_false, hyear, List.drop_succ_cons, List.drop_zero, skip_cons,
      getnum_two _ _ _ _ hm1 hm2, getnum_two _ _ _ _ hd1 hd2, Bool.or_eq_true, decide_eq_true_eq,
      c1, c4, getnum_two _ _ _ _ hh1 hh2, c2, getnum_two _ _ _ _ hn1 hn2, c3,
      List.length_nil, bne_self_eq_false]
    rw [if_neg]
    intro hc
    simp only [Bool.or_eq_false_iff, decide_eq_false_iff_not] at hy0
    rcases hc with hc | hc
    · exact hy0.1 hc
    · rw [hy0.2] at hc; exact absurd hc (by simp)
  · obtain ⟨hy0, hyear⟩ := (year_step (y1 :: y2 :: y3 :: y4 :: '-' :: m1 :: m2 :: '-' :: d1 :: d2
      :: 'T' :: h1 :: [':', n1, n2]) _).mpr ⟨y1, y2, y3, y4, _, rfl, hy1, hy2, hy3, hy4, rfl⟩
    unfold Parse
    simp only [List.cons_append, List.nil_append, skip_nil, Option.some_bind, hy0,
      Bool.false_eq_true, if_false, hyear, List.drop_succ_cons, List.drop_zero, skip_cons,
      getnum_two _ _ _ _ hm1 hm2, getnum_two _ _ _ _ hd1 hd2, Bool.or_eq_true, decide_eq_true_eq,
      c1, c4, getnum_one _ _ hh1, c2, getnum_two _ _ _ _ hn1 hn2, c3,
      List.length_nil, bne_self_eq_false]
    rw [if_neg]
    intro hc
    simp only [Bool.or_eq_false_iff, decide_eq_false_iff_not] at hy0
    rcases hc with hc | hc
    · exact hy0.1 hc
    · rw [hy0.2] at hc; exact absurd hc (by simp)

theorem append_sep_inj {α : Type} (c : α) (l1 l2 p q : List α) (hp : c ∉ p) (hq : c ∉ q)
    (h : l1 ++ c :: l2 = p ++ c :: q) : l1 = p ∧ l2 = q := by
  rcases List.append_eq_append_iff.mp h with ⟨a, ha1, ha2⟩ | ⟨a, ha1, ha2⟩
  · cases a with
    | nil =>
      simp only [List.nil_append, List.cons.injEq, true_and] at ha2
      simp only [List.append_nil] at ha1
      exact ⟨ha1.symm, ha2⟩
    | cons x a =>
      simp only [List.cons_append, List.cons.injEq] at ha2
      exfalso; apply hp; rw [ha1, ← ha2.1]; simp
  · cases a with
    | nil =>
      simp only [List.nil_append, List.cons.injEq, true_and] at ha2
      simp only [List.append_nil] at ha1
      exact ⟨ha1, ha2.symm⟩
    | cons x a =>
      simp only [List.cons_append, List.cons.injEq] at ha2
      exfalso; apply hq; rw [ha2.2]; simp

theorem isDig_ne_T (c : Char) (h : isDig c = true) : 'T' ≠ c := by
  rintro rfl
  exact absurd h (by decide)

/-- Every text `fecha + "T" + hora` that `Parse` accepts is a date and a time
of the pattern, in range, and the result is the `Date` of its fields. -/
theorem Parse_fields (f g : List Char) (t : Time) (h : Parse (f ++ 'T' :: g) = some t) :
    ∃ Y M D H N, readFecha f = some (Y, M, D) ∧ readHora g = some (H, N) ∧
      validFields Y M D H N ∧ t = Date Y M D H N 0 0 UTC := by
  obtain ⟨y1, y2, y3, y4, m1, m2, d1, d2, n1, n2, hh, H, hs, hF, hG, hv, ht⟩ :=
    Parse_shape _ t h
  obtain ⟨y1', y2', y3', y4', m1', m2', d1', d2', e, hy1, hy2, hy3, hy4, hm1, hm2, hd1, hd2, -⟩ :=
    readFecha_some _ _ _ _ hF
  simp only [List.cons.injEq, and_true, true_and] at e
  obtain ⟨rfl, rfl, rfl, rfl, rfl, rfl, rfl, rfl⟩ := e
  obtain ⟨hh', n1', n2', e, hn1, hn2, -, hH⟩ := readHora_some _ _ _ hG
  have e' := List.append_inj' e (by simp)
  obtain ⟨rfl, e2⟩ := e'
  simp only [List.cons.injEq, and_true, true_and] at e2
  obtain ⟨rfl, rfl⟩ := e2
  have hp : 'T' ∉ [y1, y2, y3, y4, '-', m1, m2, '-', d1, d2] := by
    simp only [List.mem_cons, List.mem_singleton, not_or, List.mem_nil_iff, or_false]
    exact ⟨isDig_ne_T _ hy1, isDig_ne_T _ hy2, isDig_ne_T _ hy3, isDig_ne_T _ hy4, by decide,
      isDig_ne_T _ hm1, isDig_ne_T _ hm2, by decide, isDig_ne_T _ hd1, isDig_ne_T _ hd2⟩
  have hq : 'T' ∉ hh ++ [':', n1, n2] := by
    rcases hH with ⟨h1, h2, rfl, hh1, hh2, -⟩ | ⟨h1, rfl, hh1, -⟩
    · simp only [List.cons_append, List.nil_append, List.mem_cons, List.mem_singleton, not_or,
        List.mem_nil_iff, or_false]
      exact ⟨isDig_ne_T _ hh1, isDig_ne_T _ hh2, by decide, isDig_ne_T _ hn1, isDig_ne_T _ hn2⟩
    · simp only [List.cons_append, List.nil_append, List.mem_cons, List.mem_singleton, not_or,
        List.mem_nil_iff, or_false]
      exact ⟨isDig_ne_T _ hh1, by decide, isDig_ne_T _ hn1, isDig_ne_T _ hn2⟩
  have hs' : f ++ 'T' :: g = [y1, y2, y3, y4, '-', m1, m2, '-', d1, d2] ++ 'T' :: (hh ++ [':', n1, n2]) := by
    rw [hs]; rfl
  obtain ⟨rfl, rfl⟩ := append_sep_inj 'T' f g _ _ hp hq hs'
  exact ⟨_, _, _, _, _, hF, hG, hv, ht⟩

theorem digitChar_spec : ∀ n : Nat, n < 10 →
    isDig (Char.ofNat (48 + n)) = true ∧ digitVal (Char.ofNat (48 + n)) = n := by
  decide

theorem digitChar_digitVal (c : Char) (h : isDig c = true) : Char.ofNat (48 + digitVal c) = c := by
  have hc := (isDig_iff c).mp h
  have e : 48 + digitVal c = c.toNat := by unfold digitVal; omega
  rw [e]
  exact Char.ofNat_toNat c

theorem decimal_lt (f u : Nat) (h : u < 10) : decimal (f + 1) u = [Char.ofNat (48 + u)] := by
  rw [decimal, if_pos h]

theorem decimal_ge (f u : Nat) (h : 10 ≤ u) :
    decimal (f + 1) u = decimal f (u / 10) ++ [Char.ofNat (48 + u % 10)] := by
  rw [decimal, if_neg (by omega)]

theorem appendInt_nat (b : List Char) (u width : Nat) :
    appendInt b (u : Int) width
      = b ++ List.replicate (width - (decimal 20 u).length) '0' ++ decimal 20 u := by
  unfold appendInt
  simp only [show ¬ ((u : Int) < 0) by omega, if_false, Int.natAbs_ofNat]

theorem appendInt_two (b : List Char) (u : Nat) (h : u < 100) :
    appendInt b (u : Int) 2 = b ++ [Char.ofNat (48 + u / 10), Char.ofNat (48 + u % 10)] := by
  rw [appendInt_nat]
  by_cases h10 : u < 10
  · rw [decimal_lt _ _ h10]
    have e1 : u / 10 = 0 := by omega
    have e2 : u % 10 = u := by omega
    rw [e1, e2]
    simp only [List.length_singleton, List.append_assoc]
    rfl
  · rw [decimal_ge _ _ (by omega), decimal_lt _ _ (by omega)]
    simp

theorem appendInt_four (b : List Char) (u : Nat) (h : u < 10000) :
    appendInt b (u : Int) 4 = b ++ [Char.ofNat (48 + u / 1000), Char.ofNat (48 + u / 100 % 10),
      Char.ofNat (48 + u / 10 % 10), Char.ofNat (48 + u % 10)] := by
  rw [appendInt_nat]
  by_cases h10 : u < 10
  · rw [decimal_lt _ _ h10]
    have e1 : u / 1000 = 0 := by omega
    have e2 : u / 100 % 10 = 0 := by omega
    have e3 : u / 10 % 10 = 0 := by omega
    have e4 : u % 10 = u := by omega
    rw [e1, e2, e3, e4]
    simp only [List.length_singleton, List.append_assoc]
    rfl
  · by_cases h100 : u < 100
    · rw [decimal_ge _ _ (by omega), decimal_lt _ _ (by omega)]
      have e1 : u / 1000 = 0 := by omega
      have e2 : u / 100 % 10 = 0 := by omega
      have e3 : u / 10 % 10 = u / 10 := by omega
      rw [e1, e2, e3]
      simp only [List.length_append, List.length_singleton, List.append_assoc]
      rfl
    · by_cases h1000 : u < 1000
      · rw [decimal_ge _ _ (by omega), decimal_ge _ _ (by omega), decimal_lt _ _ (by omega)]
        have e1 : u / 1000 = 0 := by omega
        have e2 : u / 100 % 10 = u / 10 / 10 := by omega
        have e3 : u / 10 % 10 = u / 10 % 10 := rfl
        rw [e1, e2]
        simp only [List.length_append, List.length_singleton, List.append_assoc]
        rfl
      · rw [decimal_ge _ _ (by omega), decimal_ge _ _ (by omega), decimal_ge _ _ (by omega),
          decimal_lt _ _ (by omega)]
        have e1 : u / 1000 = u / 10 / 10 / 10 := by omega
        have e2 : u / 100 % 10 = u / 10 / 10 % 10 := by omega
        rw [e1, e2]
        simp

theorem Format_eq (t : Time) (A Y M D h mi sc : Nat) (hA : t.abs = A) (hoff : t.loc.offset = 0)
    (hd : absDate A = ((Y : Int), (M : Int), (D : Int)))
    (hc : absClock A = ((h : Int), (mi : Int), (sc : Int)))
    (hM : M < 100) (hD : D < 100) (hh : h < 100) (hmi : mi < 100) (hsc : sc < 100) :
    t.Format =
      appendInt [] (Y : Int) 4 ++ ['-', Char.ofNat (48 + M / 10), Char.ofNat (48 + M % 10), '-',
        Char.ofNat (48 + D / 10), Char.ofNat (48 + D % 10), 'T',
        Char.ofNat (48 + h / 10), Char.ofNat (48 + h % 10), ':',
        Char.ofNat (48 + mi / 10), Char.ofNat (48 + mi % 10), ':',
        Char.ofNat (48 + sc / 10), Char.ofNat (48 + sc % 10), 'Z'] := by
  unfold Time.Format
  simp only [hA, hoff, hd, hc, appendInt_two _ _ hM, appendInt_two _ _ hD,
    appendInt_two _ _ hh, appendInt_two _ _ hmi, appendInt_two _ _ hsc, beq_self_eq_true, if_true,
    List.append_assoc, List.cons_append, List.nil_append]

theorem twoDigits_digitChar (x : Nat) (h : x < 100) :
    isDig (Char.ofNat (48 + x / 10)) = true ∧ isDig (Char.ofNat (48 + x % 10)) = true ∧
      twoDigits (Char.ofNat (48 + x / 10)) (Char.ofNat (48 + x % 10)) = x := by
  obtain ⟨a1, a2⟩ := digitChar_spec (x / 10) (by omega)
  obtain ⟨b1, b2⟩ := digitChar_spec (x % 10) (by omega)
  refine ⟨a1, b1, ?_⟩
  unfold twoDigits
  rw [a2, b2]
  omega

theorem year_digits (Y : Nat) (h : Y ≤ 10000) :
    (∀ c ∈ appendInt [] (Y : Int) 4, isDig c = true) ∧ 4 ≤ (appendInt [] (Y : Int) 4).length ∧
      readNat (appendInt [] (Y : Int) 4) = Y := by
  by_cases h4 : Y < 10000
  · rw [appendInt_four [] Y h4]
    obtain ⟨a1, a2⟩ := digitChar_spec (Y / 1000) (by omega)
    obtain ⟨b1, b2⟩ := digitChar_spec (Y / 100 % 10) (by omega)
    obtain ⟨c1, c2⟩ := digitChar_spec (Y / 10 % 10) (by omega)
    obtain ⟨d1, d2⟩ := digitChar_spec (Y % 10) (by omega)
    refine ⟨?_, by simp, ?_⟩
    · intro c hc
      simp only [List.nil_append, List.mem_cons, List.mem_singleton, List.mem_nil_iff,
        or_false] at hc
      rcases hc with rfl | rfl | rfl | rfl <;> assumption
    · simp only [readNat, List.nil_append, List.foldl_cons, List.foldl_nil, a2, b2, c2, d2]
      omega
  · have e : Y = 10000 := by omega
    subst e
    decide

theorem instantOf_digits (ys : List Char) (m d h n c : Nat) (h1 : ∀ x ∈ ys, isDig x = true)
    (h2 : 4 ≤ ys.length) (hm1 : 1 ≤ m) (hm2 : m ≤ 12) (hd1 : 1 ≤ d)
    (hd2 : d ≤ daysInMonth (readNat ys) m) (hh : h < 24) (hn : n < 60) (hc : c < 60) :
    instantOf (ys ++ ['-', Char.ofNat (48 + m / 10), Char.ofNat (48 + m % 10), '-',
        Char.ofNat (48 + d / 10), Char.ofNat (48 + d % 10), 'T',
        Char.ofNat (48 + h / 10), Char.ofNat (48 + h % 10), ':',
        Char.ofNat (48 + n / 10), Char.ofNat (48 + n % 10), ':',
        Char.ofNat (48 + c / 10), Char.ofNat (48 + c % 10), 'Z'])
      = some (((daysFromCivil (readNat ys) m d * 86400 + h * 3600 + n * 60 + c : Nat) : Int)) := by
  have hmonth := monthLength_le (leapYear (readNat ys)) m (by omega)
  have hd3 : d ≤ monthLength (leapYear (readNat ys)) m := hd2
  obtain ⟨m1, m2, m3⟩ := twoDigits_digitChar m (by omega)
  obtain ⟨d1, d2, d3⟩ := twoDigits_digitChar d (by omega)
  obtain ⟨a1, a2, a3⟩ := twoDigits_digitChar h (by omega)
  obtain ⟨n1, n2, n3⟩ := twoDigits_digitChar n (by omega)
  obtain ⟨c1, c2, c3⟩ := twoDigits_digitChar c (by omega)
  have hdash : ¬ (isDig '-' = true) := by decide
  unfold instantOf
  rw [List.takeWhile_append_of_pos h1, List.dropWhile_append_of_pos h1,
    List.takeWhile_cons_of_neg hdash, List.dropWhile_cons_of_neg hdash]
  simp only [List.append_nil, m1, m2, m3, d1, d2, d3, a1, a2, a3, n1, n2, n3, c1, c2, c3,
    zoneOffset, if_true, Option.map_some', true_and, and_true, h2, hm1, hm2, hd1, hd2, hh, hn, hc,
    and_self]
  simp

/-- The timestamp `Format` writes for an instant of the years 0 to 10000 denotes that instant. -/
theorem instantOf_Format (n : Int) (A : Nat) (h0 : 9223371966548102400 ≤ A)
    (h1 : A < 9223371966548102400 + 86400 * 3652791) :
    instantOf (Time.Format ⟨n, (A : Int) - 9223371966579724800, UTC⟩)
      = some ((A : Int) - 9223371966548102400) := by
  obtain ⟨Y, m, d, hd, hY, hm1, hm2, hd1, hd2, hsum⟩ := absDate_spec A h0 h1
  have hc := absClock_eq A (A % 86400 / 3600) (A % 3600 / 60) (A % 60) (by omega) (by omega)
    (by omega) (by omega)
  have hmonth := monthLength_le (leapYear Y) m (by omega)
  have hd3 : d ≤ monthLength (leapYear Y) m := hd2
  obtain ⟨y1, y2, y3⟩ := year_digits Y hY
  have hoff : (Time.mk n ((A : Int) - 9223371966579724800) UTC).loc.offset = 0 := rfl
  have b1 : A % 86400 / 3600 < 24 := by omega
  have b2 : A % 3600 / 60 < 60 := by omega
  have b3 : A % 60 < 60 := by omega
  have hF := Format_eq (Time.mk n ((A : Int) - 9223371966579724800) UTC) A Y m d (A % 86400 / 3600)
    (A % 3600 / 60) (A % 60) (Time_abs_eq n A h0 h1) hoff hd hc (by omega) (by omega) (by omega)
    (by omega) (by omega)
  have hd4 : d ≤ daysInMonth (readNat (appendInt [] (Y : Int) 4)) m := by rw [y3]; exact hd2
  have hI := instantOf_digits (appendInt [] (Y : Int) 4) m d (A % 86400 / 3600) (A % 3600 / 60)
    (A % 60) y1 y2 hm1 hm2 hd1 hd4 b1 b2 b3
  rw [hF, hI, y3]
  have e : ((daysFromCivil Y m d * 86400 + A % 86400 / 3600 * 3600 + A % 3600 / 60 * 60 + A % 60 : Nat) : Int)
      = (A : Int) - 9223371966548102400 := by
    omega
  rw [e]

theorem inicio_eq (Y M D H N : Nat) (hY : Y ≤ 9999) (hv : validFields Y M D H N) :
    ∃ A : Nat, Date Y M D H N 0 0 UTC = ⟨0, (A : Int) - 9223371966579724800, UTC⟩ ∧
      9223371966548102400 ≤ A ∧ A + 3600 < 9223371966548102400 + 86400 * 3652791 ∧
      A = (106751990353566 + daysFromCivil Y M D) * 86400 + H * 3600 + N * 60 := by
  obtain ⟨v1, v2, v3, v4, v5, v6⟩ := hv
  have hmonth := monthLength_le (leapYear Y) M (by omega)
  have hd3 : D ≤ monthLength (leapYear Y) M := v4
  refine ⟨_, Date_eq Y M D H N (by omega) v1 v2 v3 (by omega) v5 v6, by omega, ?_, rfl⟩
  have hS := yearStart_bound Y (by omega)
  have hS' := yearStart_mono Y 9999 hY
  have e : 365 * 9999 + ((9999 + 3) / 4 - (9999 + 99) / 100 + (9999 + 399) / 400) = 3652060 := by
    norm_num
  rw [e] at hS'
  have hB := yday_bound (leapYear Y) M (by omega) D (by omega) ⟨v1, v3, hd3⟩
  have hB' : daysBeforeMonth (leapYear Y) M + (D - 1) < 366 := by
    split at hB <;> omega
  unfold daysFromCivil
  omega

theorem twoDigits_chars (a b : Char) (ha : isDig a = true) (hb : isDig b = true) :
    Char.ofNat (48 + twoDigits a b / 10) = a ∧ Char.ofNat (48 + twoDigits a b % 10) = b := by
  have va := digitVal_le a ha
  have vb := digitVal_le b hb
  have e1 : twoDigits a b / 10 = digitVal a := by unfold twoDigits; omega
  have e2 : twoDigits a b % 10 = digitVal b := by unfold twoDigits; omega
  rw [e1, e2]
  exact ⟨digitChar_digitVal a ha, digitChar_digitVal b hb⟩

theorem oneDigit_chars (a : Char) (ha : isDig a = true) :
    Char.ofNat (48 + digitVal a / 10) = '0' ∧ Char.ofNat (48 + digitVal a % 10) = a := by
  have va := digitVal_le a ha
  have e1 : digitVal a / 10 = 0 := by omega
  have e2 : digitVal a % 10 = digitVal a := by omega
  rw [e1, e2]
  exact ⟨rfl, digitChar_digitVal a ha⟩

theorem fourDigits_chars (a b c d : Char) (ha : isDig a = true) (hb : isDig b = true)
    (hc : isDig c = true) (hd : isDig d = true) :
    appendInt [] ((1000 * digitVal a + 100 * digitVal b + 10 * digitVal c + digitVal d : Nat) : Int) 4
      = [a, b, c, d] := by
  have va := digitVal_le a ha
  have vb := digitVal_le b hb
  have vc := digitVal_le c hc
  have vd := digitVal_le d hd
  rw [appendInt_four _ _ (by omega)]
  have e1 : (1000 * digitVal a + 100 * digitVal b + 10 * digitVal c + digitVal d) / 1000
      = digitVal a := by omega
  have e2 : (1000 * digitVal a + 100 * digitVal b + 10 * digitVal c + digitVal d) / 100 % 10
      = digitVal b := by omega
  have e3 : (1000 * digitVal a + 100 * digitVal b + 10 * digitVal c + digitVal d) / 10 % 10
      = digitVal c := by omega
  have e4 : (1000 * digitVal a + 100 * digitVal b + 10 * digitVal c + digitVal d) % 10
      = digitVal d := by omega
  rw [e1, e2, e3, e4, digitChar_digitVal a ha, digitChar_digitVal b hb, digitChar_digitVal c hc,
    digitChar_digitVal d hd]
  rfl

theorem readFecha_year (f : List Char) (Y M D : Nat) (h : readFecha f = some (Y, M, D)) :
    Y ≤ 9999 := by
  obtain ⟨y1, y2, y3, y4, m1, m2, d1, d2, rfl, hy1, hy2, hy3, hy4, -, -, -, -, rfl, -, -⟩ :=
    readFecha_some f Y M D h
  have va := digitVal_le y1 hy1
  have vb := digitVal_le y2 hy2
  have vc := digitVal_le y3 hy3
  have vd := digitVal_le y4 hy4
  omega

/-- The timestamp written for an accepted date and time: the date as submitted,
the time as submitted with a one digit hour padded to two, seconds `00`, zone `Z`. -/
theorem Format_Date (f g : List Char) (Y M D H N : Nat)
    (hf : readFecha f = some (Y, M, D)) (hg : readHora g = some (H, N))
    (hv : validFields Y M D H N) :
    (Date Y M D H N 0 0 UTC).Format
      = f ++ 'T' :: ((if g.length = 5 then g else '0' :: g) ++ [':', '0', '0', 'Z']) := by
  have hY := readFecha_year f Y M D hf
  obtain ⟨A, hA, hA0, hA1, hAe⟩ := inicio_eq Y M D H N hY hv
  obtain ⟨v1, v2, v3, v4, v5, v6⟩ := hv
  have hmonth := monthLength_le (leapYear Y) M (by omega)
  have hd3 : D ≤ monthLength (leapYear Y) M := v4
  have hd : absDate A = ((Y : Int), (M : Int), (D : Int)) := by
    have := absDate_civil Y M D (H * 3600 + N * 60) (by omega) v1 v2 v3 v4 (by omega)
    rw [hAe]
    have e : (106751990353566 + daysFromCivil Y M D) * 86400 + H * 3600 + N * 60
        = (106751990353566 + daysFromCivil Y M D) * 86400 + (H * 3600 + N * 60) := by omega
    rw [e]; exact this
  have hc : absClock A = ((H : Int), (N : Int), ((0 : Nat) : Int)) :=
    absClock_eq A H N 0 v5 v6 (by omega) (by omega)
  have hoff : (Time.mk 0 ((A : Int) - 9223371966579724800) UTC).loc.offset = 0 := rfl
  have hF := Format_eq (Time.mk 0 ((A : Int) - 9223371966579724800) UTC) A Y M D H N 0
    (Time_abs_eq 0 A hA0 (by omega)) hoff hd hc (by omega) (by omega) (by omega) (by omega)
    (by omega)
  rw [hA, hF]
  obtain ⟨y1, y2, y3, y4, m1, m2, d1, d2, rfl, hy1, hy2, hy3, hy4, hm1, hm2, hd1, hd2, rfl, rfl,
    rfl⟩ := readFecha_some f Y M D hf
  obtain ⟨hh, n1, n2, rfl, hn1, hn2, rfl, hH⟩ := readHora_some g H N hg
  rw [fourDigits_chars y1 y2 y3 y4 hy1 hy2 hy3 hy4, (twoDigits_chars m1 m2 hm1 hm2).1,
    (twoDigits_chars m1 m2 hm1 hm2).2, (twoDigits_chars d1 d2 hd1 hd2).1,
    (twoDigits_chars d1 d2 hd1 hd2).2, (twoDigits_chars n1 n2 hn1 hn2).1,
    (twoDigits_chars n1 n2 hn1 hn2).2]
  have z1 : Char.ofNat (48 + 0 / 10) = '0' := rfl
  have z2 : Char.ofNat (48 + 0 % 10) = '0' := rfl
  rw [z1, z2]
  rcases hH with ⟨h1, h2, rfl, hh1, hh2, rfl⟩ | ⟨h1, rfl, hh1, rfl⟩
  · rw [(twoDigits_chars h1 h2 hh1 hh2).1, (twoDigits_chars h1 h2 hh1 hh2).2]
    rfl
  · rw [(oneDigit_chars h1 hh1).1, (oneDigit_chars h1 hh1).2]
    rfl

theorem toList_combined (fecha hora : String) :
    (fecha ++ "T" ++ hora).toList = fecha.toList ++ 'T' :: hora.toList := by
  simp [String.toList, String.data_append]

theorem reservarHandler_reject (insertDo : String → Event → Option String) (r : Request)
    (hm : r.Method = "POST")
    (hp : Parse ((r.FormValue "fecha").toList ++ 'T' :: (r.FormValue "hora").toList) = none) :
    reservarHandler insertDo r = [Effect.httpError "Fecha u hora inválida" 400] := by
  unfold reservarHandler
  simp only [hm, beq_self_eq_true, if_true, toList_combined, hp]

theorem reservarHandler_accept (insertDo : String → Event → Option String) (r : Request)
    (inicio : Time) (hm : r.Method = "POST")
    (hp : Parse ((r.FormValue "fecha").toList ++ 'T' :: (r.FormValue "hora").toList) = some inicio) :
    ∃ evento : Event,
      evento = ⟨"Consulta con " ++ r.FormValue "nombre", "Turno reservado desde la web",
         ⟨String.mk inicio.Format, "America/Argentina/Buenos_Aires"⟩,
         ⟨String.mk (inicio.Add (1 * Hour)).Format, "America/Argentina/Buenos_Aires"⟩,
         [⟨r.FormValue "email"⟩]⟩ ∧
      ((insertDo "primary" evento = none ∧
        reservarHandler insertDo r = [Effect.eventsInsert "primary" evento,
          Effect.execute (some ⟨true, r.FormValue "nombre", r.FormValue "fecha",
            r.FormValue "hora"⟩)]) ∨
       (∃ err, insertDo "primary" evento = some err ∧
        reservarHandler insertDo r = [Effect.eventsInsert "primary" evento,
          Effect.httpError "Error al crear el evento" 500])) := by
  refine ⟨_, rfl, ?_⟩
  unfold reservarHandler
  simp only [hm, beq_self_eq_true, if_true, toList_combined, hp]
  split
  · rename_i err he
    exact Or.inr ⟨err, he, rfl⟩
  · rename_i he
    exact Or.inl ⟨he, rfl⟩

theorem reservarHandler_insert (insertDo : String → Event → Option String) (r : Request)
    (cal : String) (ev : Event) (hins : Effect.eventsInsert cal ev ∈ reservarHandler insertDo r) :
    r.Method = "POST" ∧ cal = "primary" ∧ ∃ inicio,
      Parse ((r.FormValue "fecha").toList ++ 'T' :: (r.FormValue "hora").toList) = some inicio ∧
      ev = ⟨"Consulta con " ++ r.FormValue "nombre", "Turno reservado desde la web",
         ⟨String.mk inicio.Format, "America/Argentina/Buenos_Aires"⟩,
         ⟨String.mk (inicio.Add (1 * Hour)).Format, "America/Argentina/Buenos_Aires"⟩,
         [⟨r.FormValue "email"⟩]⟩ := by
  by_cases hm : r.Method = "POST"
  · cases hp : Parse ((r.FormValue "fecha").toList ++ 'T' :: (r.FormValue "hora").toList) with
    | none =>
      rw [reservarHandler_reject insertDo r hm hp] at hins
      simp at hins
    | some inicio =>
      obtain ⟨evento, he, h⟩ := reservarHandler_accept insertDo r inicio hm hp
      rcases h with ⟨_, h⟩ | ⟨err, _, h⟩
      · rw [h] at hins
        simp only [List.mem_cons, Effect.eventsInsert.injEq, List.mem_singleton, reduceCtorEq,
          or_false, List.mem_nil_iff] at hins
        exact ⟨hm, hins.1, inicio, rfl, by rw [hins.2, he]⟩
      · rw [h] at hins
        simp only [List.mem_cons, Effect.eventsInsert.injEq, List.mem_singleton, reduceCtorEq,
          or_false, List.mem_nil_iff] at hins
        exact ⟨hm, hins.1, inicio, rfl, by rw [hins.2, he]⟩
  · unfold reservarHandler at hins
    have : (r.Method == "POST") = false := by simpa using hm
    simp [this] at hins

theorem oneDigitHour_of_shape (h1 n1 n2 : Char) (a : isDig h1 = true) (b : isDig n1 = true)
    (c : isDig n2 = true) : oneDigitHour [h1, ':', n1, n2] = true := by
  simp [oneDigitHour, a, b, c]

/-- A text with a defect of the date, a range defect of the time, or a shape
defect of a time that is not a time with a one digit hour, is not parsed. -/
theorem Parse_malformed (f g : List Char)
    (hbad : fechaDefect f ∨ (horaShapeDefect g ∧ oneDigitHour g = false) ∨ horaRangeDefect g) :
    Parse (f ++ 'T' :: g) = none := by
  cases hp : Parse (f ++ 'T' :: g) with
  | none => rfl
  | some t =>
    exfalso
    obtain ⟨Y, M, D, H, N, hf, hg, ⟨v1, v2, v3, v4, v5, v6⟩, -⟩ := Parse_fields f g t hp
    obtain ⟨y1, y2, y3, y4, m1, m2, d1, d2, rfl, hy1, hy2, hy3, hy4, hm1, hm2, hd1, hd2,
      rfl, rfl, rfl⟩ := readFecha_some f Y M D hf
    obtain ⟨hh, n1, n2, rfl, hn1, hn2, rfl, hH⟩ := readHora_some g H N hg
    rcases hbad with hfd | ⟨hsd, hone⟩ | hrd
    · rcases hfd with ⟨i, hi, c, hc, hd⟩ | ⟨i, hi, c, hc, hd⟩ |
        ⟨a, b, ha, hb, -, -, hr⟩ |
        ⟨a1, a2, a3, a4, b1, b2, c1, c2, e1, e2, e3, e4, e5, e6, e7, e8, -, -, -, -, -, -, -, -, hr⟩
      · simp only [List.mem_cons, List.mem_singleton, List.mem_nil_iff, or_false] at hi
        rcases hi with rfl | rfl | rfl | rfl | rfl | rfl | rfl | rfl <;>
          simp only [List.get?_cons_succ, List.get?_cons_zero, Option.some.injEq] at hc <;>
          subst hc <;> simp_all
      · simp only [List.mem_cons, List.mem_singleton, List.mem_nil_iff, or_false] at hi
        rcases hi with rfl | rfl <;>
          simp only [List.get?_cons_succ, List.get?_cons_zero, Option.some.injEq] at hc <;>
          exact hd hc.symm
      · simp only [List.get?_cons_succ, List.get?_cons_zero, Option.some.injEq] at ha hb
        subst ha
        subst hb
        omega
      · simp only [List.get?_cons_succ, List.get?_cons_zero,
          Option.some.injEq] at e1 e2 e3 e4 e5 e6 e7 e8
        subst e1 e2 e3 e4 e5 e6 e7 e8
        omega
    · rcases hH with ⟨h1, h2, rfl, hh1, hh2, -⟩ | ⟨h1, rfl, hh1, -⟩
      · rcases hsd with ⟨i, hi, c, hc, hd⟩ | ⟨c, hc, hd⟩
        · simp only [List.mem_cons, List.mem_singleton, List.mem_nil_iff, or_false] at hi
          rcases hi with rfl | rfl | rfl | rfl <;>
            simp only [List.cons_append, List.nil_append, List.get?_cons_succ,
              List.get?_cons_zero, Option.some.injEq] at hc <;>
            subst hc <;> simp_all
        · simp only [List.cons_append, List.nil_append, List.get?_cons_succ, List.get?_cons_zero,
            Option.some.injEq] at hc
          exact hd hc.symm
      · have := oneDigitHour_of_shape h1 n1 n2 hh1 hn1 hn2
        simp only [List.cons_append, List.nil_append] at hone
        rw [this] at hone
        exact absurd hone (by simp)
    · rcases hrd with ⟨a, b, ha, hb, da, db, hr⟩ | ⟨a, b, ha, hb, da, db, hr⟩ | ⟨h, n, hr, hd⟩
      · rcases hH with ⟨h1, h2, rfl, hh1, hh2, rfl⟩ | ⟨h1, rfl, hh1, rfl⟩
        · simp only [List.cons_append, List.nil_append, List.get?_cons_succ, List.get?_cons_zero,
            Option.some.injEq] at ha hb
          subst ha
          subst hb
          omega
        · simp only [List.cons_append, List.nil_append, List.get?_cons_succ, List.get?_cons_zero,
            Option.some.injEq] at ha hb
          subst hb
          exact absurd db (by decide)
      · rcases hH with ⟨h1, h2, rfl, hh1, hh2, rfl⟩ | ⟨h1, rfl, hh1, rfl⟩
        · simp only [List.cons_append, List.nil_append, List.get?_cons_succ, List.get?_cons_zero,
            Option.some.injEq] at ha hb
          subst ha
          subst hb
          omega
        · simp [List.get?] at hb
      · rw [hg] at hr
        simp only [Option.some.injEq, Prod.mk.injEq] at hr
        obtain ⟨rfl, rfl⟩ := hr
        omega

/-- C1 as stated fails at `fecha = "2024-02-29"`, `hora = "7:45"`: read against
`HH:MM` the second character of `hora` is not a digit, yet the request reaches
`Events.Insert` and is answered with status 200. -/
theorem reservarHandler_malformed_hour_accepted :
    Malformed "2024-02-29".toList "7:45".toList ∧
    Effect.eventsInsert "primary"
        ⟨"Consulta con Ana", "Turno reservado desde la web",
         ⟨"2024-02-29T07:45:00Z", "America/Argentina/Buenos_Aires"⟩,
         ⟨"2024-02-29T08:45:00Z", "America/Argentina/Buenos_Aires"⟩, [⟨"ana@example.com"⟩]⟩
      ∈ reservarHandler (fun _ _ => none) (postForm "Ana" "ana@example.com" "2024-02-29" "7:45") ∧
    responseStatus (reservarHandler (fun _ _ => none)
      (postForm "Ana" "ana@example.com" "2024-02-29" "7:45")) = 200 :=
  ⟨Or.inr (Or.inl (Or.inl ⟨1, by decide, ':', rfl, by decide⟩)), by decide, by decide⟩

/-- C1 amended: a POST whose `fecha` or `hora` is malformed in one of the listed
ways (a non-digit where `YYYY-MM-DD` or `HH:MM` has a digit, a wrong separator,
a month, day, hour or minute out of range), where a shape defect of `hora`
counts only when `hora` is not a time with a one digit hour, is not parsed, is
answered with status 400 and never reaches `Events.Insert`. -/
theorem reservarHandler_malformed_rejected (insertDo : String → Event → Option String)
    (r : Request) (hm : r.Method = "POST")
    (hbad : fechaDefect (r.FormValue "fecha").toList ∨
      (horaShapeDefect (r.FormValue "hora").toList ∧
        oneDigitHour (r.FormValue "hora").toList = false) ∨
      horaRangeDefect (r.FormValue "hora").toList) :
    Parse (r.FormValue "fecha" ++ "T" ++ r.FormValue "hora").toList = none ∧
    reservarHandler insertDo r = [Effect.httpError "Fecha u hora inválida" 400] ∧
    responseStatus (reservarHandler insertDo r) = 400 ∧
    ∀ e ∈ reservarHandler insertDo r, e.isInsert = false := by
  have hp := Parse_malformed _ _ hbad
  have hr := reservarHandler_reject insertDo r hm hp
  rw [toList_combined]
  refine ⟨hp, hr, ?_, ?_⟩
  · rw [hr]; rfl
  · rw [hr]
    intro e he
    simp only [List.mem_singleton] at he
    subst he
    rfl

/-- C1 amended, at `hora = "25:00"` (the hour is above 23), at `hora = "noon"`
(no digit at all) and at `hora = "9;00"` (a one digit hour with a wrong
separator), each with `fecha = "2025-03-10"`. -/
theorem reservarHandler_malformed_rejected_witness :
    horaRangeDefect "25:00".toList ∧
    responseStatus (reservarHandler (fun _ _ => none)
      (postForm "Ana" "ana@example.com" "2025-03-10" "25:00")) = 400 ∧
    (horaShapeDefect "noon".toList ∧ oneDigitHour "noon".toList = false) ∧
    reservarHandler (fun _ _ => none) (postForm "Ana" "ana@example.com" "2025-03-10" "noon")
      = [Effect.httpError "Fecha u hora inválida" 400] ∧
    (horaShapeDefect "9;00".toList ∧ oneDigitHour "9;00".toList = false) ∧
    reservarHandler (fun _ _ => none) (postForm "Ana" "ana@example.com" "2025-03-10" "9;00")
      = [Effect.httpError "Fecha u hora inválida" 400] :=
  ⟨Or.inl ⟨'2', '5', rfl, rfl, by decide, by decide, by decide⟩,
   (reservarHandler_malformed_rejected (fun _ _ => none)
      (postForm "Ana" "ana@example.com" "2025-03-10" "25:00") rfl
      (Or.inr (Or.inr (Or.inl ⟨'2', '5', rfl, rfl, by decide, by decide, by decide⟩)))).2.2.1,
   ⟨Or.inl ⟨0, by decide, 'n', rfl, by decide⟩, by decide⟩,
   (reservarHandler_malformed_rejected (fun _ _ => none)
      (postForm "Ana" "ana@example.com" "2025-03-10" "noon") rfl
      (Or.inr (Or.inl ⟨Or.inl ⟨0, by decide, 'n', rfl, by decide⟩, by decide⟩))).2.1,
   ⟨Or.inl ⟨1, by decide, ';', rfl, by decide⟩, by decide⟩,
   (reservarHandler_malformed_rejected (fun _ _ => none)
      (postForm "Ana" "ana@example.com" "2025-03-10" "9;00") rfl
      (Or.inr (Or.inl ⟨Or.inl ⟨1, by decide, ';', rfl, by decide⟩, by decide⟩))).2.1⟩

theorem accepted_times (f g : List Char) (inicio : Time)
    (hp : Parse (f ++ 'T' :: g) = some inicio) :
    ∃ (Y M D H N A : Nat), readFecha f = some (Y, M, D) ∧ readHora g = some (H, N) ∧
      validFields Y M D H N ∧ inicio = Date Y M D H N 0 0 UTC ∧
      inicio = ⟨0, (A : Int) - 9223371966579724800, UTC⟩ ∧
      inicio.Add (1 * Hour) = ⟨0, ((A + 3600 : Nat) : Int) - 9223371966579724800, UTC⟩ ∧
      9223371966548102400 ≤ A ∧ A + 3600 < 9223371966548102400 + 86400 * 3652791 := by
  obtain ⟨Y, M, D, H, N, hf, hg, hv, ht⟩ := Parse_fields f g inicio hp
  obtain ⟨A, hA, hA0, hA1, -⟩ := inicio_eq Y M D H N (readFecha_year f Y M D hf) hv
  refine ⟨Y, M, D, H, N, A, hf, hg, hv, ht, ht.trans hA, ?_, hA0, hA1⟩
  rw [ht, hA]
  exact Time_Add_hour A hA0 (by omega)

/-- C2: for every request that reaches `Events.Insert`, the timestamp in
`End.DateTime` denotes the instant exactly 3600 seconds after the one that
`Start.DateTime` denotes, across the end of a day, a month or a year too. -/
theorem reservarHandler_end_one_hour_later (insertDo : String → Event → Option String)
    (r : Request) (cal : String) (ev : Event)
    (hins : Effect.eventsInsert cal ev ∈ reservarHandler insertDo r) :
    ∃ a : Int, instantOf ev.Start.DateTime.toList = some a ∧
      instantOf ev.End.DateTime.toList = some (a + 3600) := by
  obtain ⟨-, -, inicio, hp, hev⟩ := reservarHandler_insert insertDo r cal ev hins
  obtain ⟨Y, M, D, H, N, A, -, -, -, -, hA, hfin, hA0, hA1⟩ := accepted_times _ _ inicio hp
  have hs : ev.Start.DateTime.toList = inicio.Format := by rw [hev]; rfl
  have he : ev.End.DateTime.toList = (inicio.Add (1 * Hour)).Format := by rw [hev]; rfl
  have h1 := instantOf_Format 0 A hA0 (by omega)
  have h2 := instantOf_Format 0 (A + 3600) (by omega) hA1
  have e : (((A + 3600 : Nat) : Int) - 9223371966548102400)
      = ((A : Int) - 9223371966548102400) + 3600 := by omega
  rw [e] at h2
  rw [← hA] at h1
  rw [← hfin] at h2
  rw [← hs] at h1
  rw [← he] at h2
  exact ⟨_, h1, h2⟩

/-- C2 at `2025-12-31 23:30`: the end is `2026-01-01 00:30`, one hour later; and
`2024-02-28 23:30` ends on the leap day, `2024-02-29 00:30`. -/
theorem reservarHandler_end_one_hour_later_witness :
    Effect.eventsInsert "primary"
        ⟨"Consulta con Ana", "Turno reservado desde la web",
         ⟨"2025-12-31T23:30:00Z", "America/Argentina/Buenos_Aires"⟩,
         ⟨"2026-01-01T00:30:00Z", "America/Argentina/Buenos_Aires"⟩, [⟨"ana@example.com"⟩]⟩
      ∈ reservarHandler (fun _ _ => none)
          (postForm "Ana" "ana@example.com" "2025-12-31" "23:30") ∧
    (∃ a : Int, instantOf "2025-12-31T23:30:00Z".toList = some a ∧
      instantOf "2026-01-01T00:30:00Z".toList = some (a + 3600)) ∧
    Effect.eventsInsert "primary"
        ⟨"Consulta con Ana", "Turno reservado desde la web",
         ⟨"2024-02-28T23:30:00Z", "America/Argentina/Buenos_Aires"⟩,
         ⟨"2024-02-29T00:30:00Z", "America/Argentina/Buenos_Aires"⟩, [⟨"ana@example.com"⟩]⟩
      ∈ reservarHandler (fun _ _ => none)
          (postForm "Ana" "ana@example.com" "2024-02-28" "23:30") :=
  ⟨by decide, reservarHandler_end_one_hour_later (fun _ _ => none)
    (postForm "Ana" "ana@example.com" "2025-12-31" "23:30") "primary"
    ⟨"Consulta con Ana", "Turno reservado desde la web",
     ⟨"2025-12-31T23:30:00Z", "America/Argentina/Buenos_Aires"⟩,
     ⟨"2026-01-01T00:30:00Z", "America/Argentina/Buenos_Aires"⟩, [⟨"ana@example.com"⟩]⟩
    (by decide), by decide⟩

/-- C3: for every request that reaches `Events.Insert` with an `hora` of five
characters (`HH:MM`), `Start.DateTime` is the submitted date, `T`, the
submitted time, seconds `00` and the zone: no field is lost or changed. -/
theorem reservarHandler_start_keeps_fields (insertDo : String → Event → Option String)
    (r : Request) (cal : String) (ev : Event)
    (hins : Effect.eventsInsert cal ev ∈ reservarHandler insertDo r)
    (h5 : (r.FormValue "hora").length = 5) :
    ev.Start.DateTime = r.FormValue "fecha" ++ "T" ++ r.FormValue "hora" ++ ":00" ++ "Z" := by
  obtain ⟨-, -, inicio, hp, hev⟩ := reservarHandler_insert insertDo r cal ev hins
  obtain ⟨Y, M, D, H, N, A, hf, hg, hv, ht, -⟩ := accepted_times _ _ inicio hp
  have h5' : (r.FormValue "hora").toList.length = 5 := h5
  have hF := Format_Date _ _ Y M D H N hf hg hv
  rw [if_pos h5'] at hF
  have hs : ev.Start.DateTime = String.mk inicio.Format := by rw [hev]
  rw [hs, ht, hF]
  apply String.ext
  simp [String.data_append, String.toList]

/-- C3 at `fecha = "2025-03-10"`, `hora = "09:00"`: start `2025-03-10T09:00:00`, end
`2025-03-10T10:00:00`. -/
theorem reservarHandler_start_keeps_fields_witness :
    Effect.eventsInsert "primary"
        ⟨"Consulta con Ana", "Turno reservado desde la web",
         ⟨"2025-03-10T09:00:00Z", "America/Argentina/Buenos_Aires"⟩,
         ⟨"2025-03-10T10:00:00Z", "America/Argentina/Buenos_Aires"⟩, [⟨"ana@example.com"⟩]⟩
      ∈ reservarHandler (fun _ _ => none)
          (postForm "Ana" "ana@example.com" "2025-03-10" "09:00") ∧
    "09:00".length = 5 ∧
    "2025-03-10T09:00:00Z" = "2025-03-10" ++ "T" ++ "09:00" ++ ":00" ++ "Z" :=
  ⟨by decide, by decide, reservarHandler_start_keeps_fields (fun _ _ => none)
    (postForm "Ana" "ana@example.com" "2025-03-10" "09:00") "primary"
    ⟨"Consulta con Ana", "Turno reservado desde la web",
     ⟨"2025-03-10T09:00:00Z", "America/Argentina/Buenos_Aires"⟩,
     ⟨"2025-03-10T10:00:00Z", "America/Argentina/Buenos_Aires"⟩, [⟨"ana@example.com"⟩]⟩
    (by decide) (by decide)⟩

/-- C4 at its failing input `fecha = "2025-03-10"`, `hora = "09:00"`: the event
names the zone America/Argentina/Buenos_Aires, but `Start.DateTime` is written
with the zone `Z`, and so denotes 09:00 UTC, three hours before the instant
`2025-03-10T09:00:00-03:00` (12:00 UTC) that 09:00 in that zone is. -/
theorem reservarHandler_start_in_utc :
    reservarHandler (fun _ _ => none) (postForm "Ana" "ana@example.com" "2025-03-10" "09:00")
      = [Effect.eventsInsert "primary"
          ⟨"Consulta con Ana", "Turno reservado desde la web",
           ⟨"2025-03-10T09:00:00Z", "America/Argentina/Buenos_Aires"⟩,
           ⟨"2025-03-10T10:00:00Z", "America/Argentina/Buenos_Aires"⟩, [⟨"ana@example.com"⟩]⟩,
         Effect.execute (some ⟨true, "Ana", "2025-03-10", "09:00"⟩)] ∧
    instantOf "2025-03-10T09:00:00-03:00".toList = instantOf "2025-03-10T12:00:00Z".toList ∧
    instantOf "2025-03-10T09:00:00Z".toList = some 63908816400 ∧
    instantOf "2025-03-10T12:00:00Z".toList = some (63908816400 + 3 * 3600) := by
  decide

/-- C6: a request whose date and time are accepted calls `Events.Insert` exactly
once, on the calendar `primary`; when the call fails the status is 500 and no
confirmation is rendered, and a confirmation is rendered only when it succeeded. -/
theorem reservarHandler_inserts_once (insertDo : String → Event → Option String) (r : Request)
    (inicio : Time) (hm : r.Method = "POST")
    (hp : Parse (r.FormValue "fecha" ++ "T" ++ r.FormValue "hora").toList = some inicio) :
    ((reservarHandler insertDo r).filter Effect.isInsert).length = 1 ∧
    (∀ cal ev, Effect.eventsInsert cal ev ∈ reservarHandler insertDo r → cal = "primary") ∧
    (∀ cal ev err, Effect.eventsInsert cal ev ∈ reservarHandler insertDo r →
      insertDo cal ev = some err →
        responseStatus (reservarHandler insertDo r) = 500 ∧
        ∀ e ∈ reservarHandler insertDo r, e.isConfirmation = false) ∧
    (∀ e ∈ reservarHandler insertDo r, e.isConfirmation = true →
      ∀ cal ev, Effect.eventsInsert cal ev ∈ reservarHandler insertDo r →
        insertDo cal ev = none) := by
  rw [toList_combined] at hp
  obtain ⟨evento, -, h⟩ := reservarHandler_accept insertDo r inicio hm hp
  rcases h with ⟨hok, h⟩ | ⟨err, herr, h⟩
  · rw [h]
    refine ⟨rfl, ?_, ?_, ?_⟩
    · intro cal ev hmem
      simp only [List.mem_cons, Effect.eventsInsert.injEq, List.mem_singleton, reduceCtorEq,
        or_false, List.mem_nil_iff] at hmem
      exact hmem.1
    · intro cal ev err hmem hfail
      simp only [List.mem_cons, Effect.eventsInsert.injEq, List.mem_singleton, reduceCtorEq,
        or_false, List.mem_nil_iff] at hmem
      rw [hmem.1, hmem.2, hok] at hfail
      exact absurd hfail (by simp)
    · intro e he hc cal ev hmem
      simp only [List.mem_cons, Effect.eventsInsert.injEq, List.mem_singleton, reduceCtorEq,
        or_false, List.mem_nil_iff] at hmem
      rw [hmem.1, hmem.2, hok]
  · rw [h]
    refine ⟨rfl, ?_, ?_, ?_⟩
    · intro cal ev hmem
      simp only [List.mem_cons, Effect.eventsInsert.injEq, List.mem_singleton, reduceCtorEq,
        or_false, List.mem_nil_iff] at hmem
      exact hmem.1
    · intro cal ev err' hmem hfail
      refine ⟨rfl, ?_⟩
      intro e he
      simp only [List.mem_cons, List.mem_singleton, List.mem_nil_iff, or_false] at he
      rcases he with rfl | rfl <;> rfl
    · intro e he hc
      simp only [List.mem_cons, List.mem_singleton, List.mem_nil_iff, or_false] at he
      rcases he with rfl | rfl <;> exact absurd hc (by simp [Effect.isConfirmation])

/-- C6 at a request the calendar refuses: one call, status 500, no confirmation. -/
theorem reservarHandler_inserts_once_witness :
    ((reservarHandler (fun _ _ => some "quota exceeded")
        (postForm "Ana" "ana@example.com" "2025-03-10" "09:00")).filter Effect.isInsert).length = 1 ∧
    responseStatus (reservarHandler (fun _ _ => some "quota exceeded")
        (postForm "Ana" "ana@example.com" "2025-03-10" "09:00")) = 500 :=
  ⟨(reservarHandler_inserts_once (fun _ _ => some "quota exceeded")
      (postForm "Ana" "ana@example.com" "2025-03-10" "09:00")
      (Date 2025 3 10 9 0 0 0 UTC) rfl (by decide)).1, by decide⟩

/-- C7 as stated fails at `hora = "9:00"`: a time with a one digit hour, four
characters long, reaches `Events.Insert` and is answered with status 200. -/
theorem reservarHandler_accepts_one_digit_hour :
    "9:00".length = 4 ∧
    Effect.eventsInsert "primary"
        ⟨"Consulta con Ana", "Turno reservado desde la web",
         ⟨"2025-03-10T09:00:00Z", "America/Argentina/Buenos_Aires"⟩,
         ⟨"2025-03-10T10:00:00Z", "America/Argentina/Buenos_Aires"⟩, [⟨"ana@example.com"⟩]⟩
      ∈ reservarHandler (fun _ _ => none) (postForm "Ana" "ana@example.com" "2025-03-10" "9:00") ∧
    responseStatus (reservarHandler (fun _ _ => none)
      (postForm "Ana" "ana@example.com" "2025-03-10" "9:00")) = 200 := by
  decide

/-- C7 amended: a POST reaches `Events.Insert` exactly when `fecha` is four
digits, `-`, two digits, `-`, two digits and `hora` is one or two digits, `:`,
two digits, with nothing before or after, and the fields are in range; every
other POST is answered with status 400 and nothing else. -/
theorem reservarHandler_accepts_iff (insertDo : String → Event → Option String) (r : Request)
    (hm : r.Method = "POST") :
    ((∃ e ∈ reservarHandler insertDo r, e.isInsert = true) ↔
      ∃ y m d h n, readFecha (r.FormValue "fecha").toList = some (y, m, d) ∧
        readHora (r.FormValue "hora").toList = some (h, n) ∧ validFields y m d h n) ∧
    ((¬ ∃ y m d h n, readFecha (r.FormValue "fecha").toList = some (y, m, d) ∧
        readHora (r.FormValue "hora").toList = some (h, n) ∧ validFields y m d h n) →
      reservarHandler insertDo r = [Effect.httpError "Fecha u hora inválida" 400] ∧
      responseStatus (reservarHandler insertDo r) = 400) := by
  constructor
  · constructor
    · rintro ⟨e, he, hi⟩
      cases e with
      | eventsInsert cal ev =>
        obtain ⟨-, -, inicio, hp, -⟩ := reservarHandler_insert insertDo r cal ev he
        obtain ⟨Y, M, D, H, N, hf, hg, hv, -⟩ := Parse_fields _ _ inicio hp
        exact ⟨Y, M, D, H, N, hf, hg, hv⟩
      | execute data => exact absurd hi (by simp [Effect.isInsert])
      | httpError er code => exact absurd hi (by simp [Effect.isInsert])
    · rintro ⟨Y, M, D, H, N, hf, hg, hv⟩
      have hp := Parse_of_fields _ _ Y M D H N hf hg hv
      obtain ⟨evento, -, h⟩ := reservarHandler_accept insertDo r _ hm hp
      rcases h with ⟨-, h⟩ | ⟨err, -, h⟩ <;>
        exact ⟨Effect.eventsInsert "primary" evento, by rw [h]; simp, rfl⟩
  · intro hno
    have hp : Parse ((r.FormValue "fecha").toList ++ 'T' :: (r.FormValue "hora").toList) = none := by
      cases hq : Parse ((r.FormValue "fecha").toList ++ 'T' :: (r.FormValue "hora").toList) with
      | none => rfl
      | some t =>
        obtain ⟨Y, M, D, H, N, hf, hg, hv, -⟩ := Parse_fields _ _ t hq
        exact absurd ⟨Y, M, D, H, N, hf, hg, hv⟩ hno
    rw [reservarHandler_reject insertDo r hm hp]
    exact ⟨rfl, rfl⟩

/-- C7 amended, at `hora = "9:00"` (accepted) and at an empty `hora` (rejected). -/
theorem reservarHandler_accepts_iff_witness :
    (∃ e ∈ reservarHandler (fun _ _ => none)
        (postForm "Ana" "ana@example.com" "2025-03-10" "9:00"), e.isInsert = true) ∧
    reservarHandler (fun _ _ => none) (postForm "Ana" "ana@example.com" "2025-03-10" "")
      = [Effect.httpError "Fecha u hora inválida" 400] :=
  ⟨(reservarHandler_accepts_iff (fun _ _ => none)
      (postForm "Ana" "ana@example.com" "2025-03-10" "9:00") rfl).1.mpr
      ⟨2025, 3, 10, 9, 0, by decide, by decide, by decide⟩,
   ((reservarHandler_accepts_iff (fun _ _ => none)
      (postForm "Ana" "ana@example.com" "2025-03-10" "") rfl).2
      (by rintro ⟨y, m, d, h, n, -, hg, -⟩; cases hg)).1⟩

/-- C9: whatever `nombre` and `email` are, the event sent has the summary
`"Consulta con "` followed by `nombre`, the constant description and the one
attendee `email`; and requests that differ only in `nombre` and `email` are
accepted or rejected alike. -/
theorem reservarHandler_event_fields (insertDo : String → Event → Option String) (r : Request)
    (cal : String) (ev : Event)
    (hins : Effect.eventsInsert cal ev ∈ reservarHandler insertDo r) :
    ev.Summary = "Consulta con " ++ r.FormValue "nombre" ∧
    ev.Description = "Turno reservado desde la web" ∧
    ev.Attendees = [⟨r.FormValue "email"⟩] ∧
    ∀ (insertDo2 : String → Event → Option String) (r2 : Request), r2.Method = r.Method →
      r2.FormValue "fecha" = r.FormValue "fecha" → r2.FormValue "hora" = r.FormValue "hora" →
      ∃ e ∈ reservarHandler insertDo2 r2, e.isInsert = true := by
  obtain ⟨hm, -, inicio, hp, hev⟩ := reservarHandler_insert insertDo r cal ev hins
  refine ⟨by rw [hev], by rw [hev], by rw [hev], ?_⟩
  intro insertDo2 r2 h1 h2 h3
  rw [← h2, ← h3] at hp
  obtain ⟨evento, -, h⟩ := reservarHandler_accept insertDo2 r2 inicio (h1.trans hm) hp
  rcases h with ⟨-, h⟩ | ⟨err, -, h⟩ <;>
    exact ⟨Effect.eventsInsert "primary" evento, by rw [h]; simp, rfl⟩

/-- C9 with an empty `nombre` and an `email` that is no address. -/
theorem reservarHandler_event_fields_witness :
    Effect.eventsInsert "primary"
        ⟨"Consulta con ", "Turno reservado desde la web",
         ⟨"2025-03-10T09:00:00Z", "America/Argentina/Buenos_Aires"⟩,
         ⟨"2025-03-10T10:00:00Z", "America/Argentina/Buenos_Aires"⟩, [⟨"no at sign"⟩]⟩
      ∈ reservarHandler (fun _ _ => none) (postForm "" "no at sign" "2025-03-10" "09:00") ∧
    ("Consulta con " : String) = "Consulta con " ++ "" :=
  ⟨by decide, (reservarHandler_event_fields (fun _ _ => none)
    (postForm "" "no at sign" "2025-03-10" "09:00") "primary"
    ⟨"Consulta con ", "Turno reservado desde la web",
     ⟨"2025-03-10T09:00:00Z", "America/Argentina/Buenos_Aires"⟩,
     ⟨"2025-03-10T10:00:00Z", "America/Argentina/Buenos_Aires"⟩, [⟨"no at sign"⟩]⟩
    (by decide)).1⟩

/-- C10: when the date and time are accepted and the insert succeeds, the
confirmation template is executed, and whatever confirmation is executed has
`Confirmacion = true` and the submitted `nombre`, `fecha` and `hora` unchanged. -/
theorem reservarHandler_confirmation_echo (insertDo : String → Event → Option String)
    (r : Request) (inicio : Time) (hm : r.Method = "POST")
    (hp : Parse (r.FormValue "fecha" ++ "T" ++ r.FormValue "hora").toList = some inicio)
    (hok : ∀ cal ev, Effect.eventsInsert cal ev ∈ reservarHandler insertDo r →
      insertDo cal ev = none) :
    Effect.execute (some ⟨true, r.FormValue "nombre", r.FormValue "fecha", r.FormValue "hora"⟩)
      ∈ reservarHandler insertDo r ∧
    ∀ c, Effect.execute (some c) ∈ reservarHandler insertDo r →
      c = ⟨true, r.FormValue "nombre", r.FormValue "fecha", r.FormValue "hora"⟩ := by
  rw [toList_combined] at hp
  obtain ⟨evento, -, h⟩ := reservarHandler_accept insertDo r inicio hm hp
  rcases h with ⟨-, h⟩ | ⟨err, herr, h⟩
  · rw [h]
    refine ⟨by simp, ?_⟩
    intro c hc
    simp only [List.mem_cons, reduceCtorEq, List.mem_singleton, Effect.execute.injEq,
      Option.some.injEq, false_or, List.mem_nil_iff, or_false] at hc
    exact hc
  · have := hok "primary" evento (by rw [h]; simp)
    rw [herr] at this
    exact absurd this (by simp)

/-- C10 at a time with a one digit hour: the page shows `9:00` as submitted, not
the `09:00` of the parsed instant. -/
theorem reservarHandler_confirmation_echo_witness :
    Effect.execute (some ⟨true, "Ana", "2025-03-10", "9:00"⟩)
      ∈ reservarHandler (fun _ _ => none) (postForm "Ana" "ana@example.com" "2025-03-10" "9:00") :=
  (reservarHandler_confirmation_echo (fun _ _ => none)
    (postForm "Ana" "ana@example.com" "2025-03-10" "9:00") (Date 2025 3 10 9 0 0 0 UTC) rfl
    (by decide) (fun _ _ _ => rfl)).1

theorem getClient_loaded (w : World) (tok : Token)
    (h : tokenFromFile w "token.json" = Except.ok tok) : getClient w = [Step.client tok] := by
  unfold getClient
  simp only [h]

theorem getClient_not_loaded (w : World) (err : String)
    (h : tokenFromFile w "token.json" = Except.error err) :
    getClient w =
      match getTokenFromWeb w with
      | (steps, none) => steps
      | (steps, some tok) =>
        match saveToken w "token.json" tok with
        | (saved, false) => steps ++ saved
        | (saved, true) => steps ++ saved ++ [Step.client tok] := by
  unfold getClient
  simp only [h]

/-- The steps of `getClient` when no token could be loaded, case by case. -/
theorem getClient_interactive (w : World) (err : String)
    (h : tokenFromFile w "token.json" = Except.error err) :
    (∃ e, w.scan = Except.error e ∧ getClient w =
      [Step.getTokenFromWeb,
       Step.print ("Visita la siguiente URL para autorizar la aplicación:\n"
         ++ w.authCodeURL ++ "\n"),
       Step.print "Ingresa el código de autorización: ", Step.scan,
       Step.fatal ("No se pudo leer el código de autorización: " ++ e)]) ∨
    (∃ code e, w.scan = Except.ok code ∧ w.exchange code = Except.error e ∧ getClient w =
      [Step.getTokenFromWeb,
       Step.print ("Visita la siguiente URL para autorizar la aplicación:\n"
         ++ w.authCodeURL ++ "\n"),
       Step.print "Ingresa el código de autorización: ", Step.scan, Step.exchange code,
       Step.fatal ("No se pudo obtener el token: " ++ e)]) ∨
    (∃ code tok e, w.scan = Except.ok code ∧ w.exchange code = Except.ok tok ∧
      w.osCreate "token.json" = some e ∧ getClient w =
      [Step.getTokenFromWeb,
       Step.print ("Visita la siguiente URL para autorizar la aplicación:\n"
         ++ w.authCodeURL ++ "\n"),
       Step.print "Ingresa el código de autorización: ", Step.scan, Step.exchange code,
       Step.saveToken "token.json" tok, Step.print ("Guardando token en " ++ "token.json" ++ "\n"),
       Step.fatal ("No se pudo crear el archivo de token: " ++ e)]) ∨
    (∃ code tok, w.scan = Except.ok code ∧ w.exchange code = Except.ok tok ∧
      w.osCreate "token.json" = none ∧ getClient w =
      [Step.getTokenFromWeb,
       Step.print ("Visita la siguiente URL para autorizar la aplicación:\n"
         ++ w.authCodeURL ++ "\n"),
       Step.print "Ingresa el código de autorización: ", Step.scan, Step.exchange code,
       Step.saveToken "token.json" tok, Step.print ("Guardando token en " ++ "token.json" ++ "\n"),
       Step.create "token.json", Step.encode "token.json" tok, Step.client tok]) := by
  rw [getClient_not_loaded w err h]
  unfold getTokenFromWeb saveToken
  cases hs : w.scan with
  | error e => exact Or.inl ⟨e, rfl, rfl⟩
  | ok code =>
    cases hx : w.exchange code with
    | error e => exact Or.inr (Or.inl ⟨code, e, rfl, hx, by simp only [hx]; rfl⟩)
    | ok tok =>
      cases hc : w.osCreate "token.json" with
      | some e =>
        exact Or.inr (Or.inr (Or.inl ⟨code, tok, e, rfl, hx, rfl, by simp only [hx, hc]; rfl⟩))
      | none =>
        exact Or.inr (Or.inr (Or.inr ⟨code, tok, rfl, hx, rfl, by simp only [hx, hc]; rfl⟩))

theorem getClient_same_dialogue (w w2 : World) (err err2 : String)
    (h : tokenFromFile w "token.json" = Except.error err)
    (h2 : tokenFromFile w2 "token.json" = Except.error err2)
    (e1 : w2.authCodeURL = w.authCodeURL) (e2 : w2.scan = w.scan)
    (e3 : w2.exchange = w.exchange) (e4 : w2.osCreate = w.osCreate) :
    getClient w2 = getClient w := by
  have g : getTokenFromWeb w2 = getTokenFromWeb w := by
    unfold getTokenFromWeb
    rw [e1, e2, e3]
  have s : ∀ p t, saveToken w2 p t = saveToken w p t := by
    intro p t
    unfold saveToken
    rw [e4]
  rw [getClient_not_loaded w err h, getClient_not_loaded w2 err2 h2, g]
  simp only [s]

/-- C5: `getClient` runs the interactive authorization exactly when
`tokenFromFile("token.json")` returns an error.  When the load succeeds the one
step is `config.Client` on the loaded token: nothing is printed, read or
written.  When it fails `getTokenFromWeb` runs once with one blocking read,
and, once the exchange has returned a token, `saveToken` runs once, with that
token, which is also the one the client is built from; and what the load error
was changes nothing. -/
theorem getClient_authorizes_iff_load_fails (w : World) :
    (Step.getTokenFromWeb ∈ getClient w ↔
      ∃ err, tokenFromFile w "token.json" = Except.error err) ∧
    (∀ tok, tokenFromFile w "token.json" = Except.ok tok → getClient w = [Step.client tok]) ∧
    (∀ err, tokenFromFile w "token.json" = Except.error err →
      (getClient w).count Step.getTokenFromWeb = 1 ∧
      (getClient w).count Step.scan = 1 ∧
      (∀ code tok, w.scan = Except.ok code → w.exchange code = Except.ok tok →
        (getClient w).count (Step.saveToken "token.json" tok) = 1 ∧
        (∀ p t, Step.saveToken p t ∈ getClient w → p = "token.json" ∧ t = tok) ∧
        (∀ t, Step.client t ∈ getClient w → t = tok)) ∧
      (∀ (w2 : World) (err2 : String), tokenFromFile w2 "token.json" = Except.error err2 →
        w2.authCodeURL = w.authCodeURL → w2.scan = w.scan → w2.exchange = w.exchange →
        w2.osCreate = w.osCreate → getClient w2 = getClient w)) := by
  have hfail : ∀ err, tokenFromFile w "token.json" = Except.error err →
      (getClient w).count Step.getTokenFromWeb = 1 ∧
      (getClient w).count Step.scan = 1 ∧
      (∀ code tok, w.scan = Except.ok code → w.exchange code = Except.ok tok →
        (getClient w).count (Step.saveToken "token.json" tok) = 1 ∧
        (∀ p t, Step.saveToken p t ∈ getClient w → p = "token.json" ∧ t = tok) ∧
        (∀ t, Step.client t ∈ getClient w → t = tok)) ∧
      (∀ (w2 : World) (err2 : String), tokenFromFile w2 "token.json" = Except.error err2 →
        w2.authCodeURL = w.authCodeURL → w2.scan = w.scan → w2.exchange = w.exchange →
        w2.osCreate = w.osCreate → getClient w2 = getClient w) := by
    intro err h
    refine ⟨?_, ?_, ?_, ?_⟩
    · rcases getClient_interactive w err h with ⟨e, -, hg⟩ | ⟨code, e, -, -, hg⟩ |
        ⟨code, tok, e, -, -, -, hg⟩ | ⟨code, tok, -, -, -, hg⟩ <;> rw [hg] <;> simp
    · rcases getClient_interactive w err h with ⟨e, -, hg⟩ | ⟨code, e, -, -, hg⟩ |
        ⟨code, tok, e, -, -, -, hg⟩ | ⟨code, tok, -, -, -, hg⟩ <;> rw [hg] <;> simp
    · intro code tok hs hx
      rcases getClient_interactive w err h with ⟨e, hs', hg⟩ | ⟨code', e, hs', hx', hg⟩ |
        ⟨code', tok', e, hs', hx', -, hg⟩ | ⟨code', tok', hs', hx', -, hg⟩
      · rw [hs] at hs'; exact absurd hs' (by simp)
      · rw [hs] at hs'
        simp only [Except.ok.injEq] at hs'
        subst hs'
        rw [hx] at hx'; exact absurd hx' (by simp)
      · rw [hs] at hs'
        simp only [Except.ok.injEq] at hs'
        subst hs'
        rw [hx] at hx'
        simp only [Except.ok.injEq] at hx'
        subst hx'
        rw [hg]
        refine ⟨by simp, ?_, ?_⟩
        · intro p t hm
          simpa using hm
        · intro t hm
          simp at hm
      · rw [hs] at hs'
        simp only [Except.ok.injEq] at hs'
        subst hs'
        rw [hx] at hx'
        simp only [Except.ok.injEq] at hx'
        subst hx'
        rw [hg]
        refine ⟨by simp, ?_, ?_⟩
        · intro p t hm
          simpa using hm
        · intro t hm
          simpa using hm
    · intro w2 err2 h2 e1 e2 e3 e4
      exact getClient_same_dialogue w w2 err err2 h h2 e1 e2 e3 e4
  refine ⟨?_, fun tok h => getClient_loaded w tok h, hfail⟩
  constructor
  · intro hmem
    cases h : tokenFromFile w "token.json" with
    | ok tok =>
      rw [getClient_loaded w tok h] at hmem
      simp at hmem
    | error err => exact ⟨err, rfl⟩
  · rintro ⟨err, h⟩
    have := (hfail err h).1
    exact List.count_pos_iff.mp (by omega)

/-- C5 in a world with a stored token (one step, the client) and in a world
without one (one authorization, one `saveToken` with the issued token). -/
theorem getClient_authorizes_iff_load_fails_witness :
    getClient worldWithToken = [Step.client storedToken] ∧
    (getClient worldWithoutToken).count Step.getTokenFromWeb = 1 ∧
    (getClient worldWithoutToken).count (Step.saveToken "token.json" issuedToken) = 1 :=
  ⟨(getClient_authorizes_iff_load_fails worldWithToken).2.1 storedToken rfl,
   ((getClient_authorizes_iff_load_fails worldWithoutToken).2.2
      "open token.json: no such file or directory" rfl).1,
   (((getClient_authorizes_iff_load_fails worldWithoutToken).2.2
      "open token.json: no such file or directory" rfl).2.2.1 "4/code" issuedToken rfl rfl).1⟩

/-- C8 as stated fails: with a `token.json` that holds a token expired at second
100, `getClient` hands that very token to `config.Client` at second 200. -/
theorem getClient_hands_over_expired_token :
    tokenFromFile worldWithToken "token.json" = Except.ok storedToken ∧
    Step.client storedToken ∈ getClient worldWithToken ∧
    storedToken.Expiry = 100 ∧ ¬ ((200 : Int) < storedToken.Expiry) :=
  ⟨rfl, by decide, rfl, by decide⟩

/-- C8 amended: the token `getClient` hands to `config.Client` is the token
decoded from `token.json` when the load succeeds, and otherwise the token the
exchange returned, unchanged and with no look at its expiry: it is unexpired
at hand-over exactly when that stored or issued token is. -/
theorem getClient_hands_over_unchanged (w : World) (tok : Token)
    (h : Step.client tok ∈ getClient w) :
    ∃ src : Token,
      (tokenFromFile w "token.json" = Except.ok src ∨
        ∃ err code, tokenFromFile w "token.json" = Except.error err ∧
          w.scan = Except.ok code ∧ w.exchange code = Except.ok src) ∧
      tok = src ∧ ∀ now : Int, now < tok.Expiry ↔ now < src.Expiry := by
  cases hl : tokenFromFile w "token.json" with
  | ok src =>
    rw [getClient_loaded w src hl] at h
    simp only [List.mem_singleton, Step.client.injEq] at h
    exact ⟨src, Or.inl rfl, h, fun now => by rw [h]⟩
  | error err =>
    rcases getClient_interactive w err hl with ⟨e, -, hg⟩ | ⟨code, e, -, -, hg⟩ |
      ⟨code, src, e, -, -, -, hg⟩ | ⟨code, src, hs, hx, -, hg⟩
    · rw [hg] at h; simp at h
    · rw [hg] at h; simp at h
    · rw [hg] at h; simp at h
    · rw [hg] at h
      have e : tok = src := by simpa using h
      exact ⟨src, Or.inr ⟨err, code, rfl, hs, hx⟩, e, fun now => by rw [e]⟩

/-- C8 amended, in the world whose `token.json` holds the expired token. -/
theorem getClient_hands_over_unchanged_witness :
    Step.client storedToken ∈ getClient worldWithToken ∧
    ∃ src : Token,
      (tokenFromFile worldWithToken "token.json" = Except.ok src ∨
        ∃ err code, tokenFromFile worldWithToken "token.json" = Except.error err ∧
          worldWithToken.scan = Except.ok code ∧ worldWithToken.exchange code = Except.ok src) ∧
      storedToken = src ∧ ∀ now : Int, now < storedToken.Expiry ↔ now < src.Expiry :=
  ⟨by decide, getClient_hands_over_unchanged worldWithToken storedToken (by decide)⟩

end Agenda
